import Mathlib

/-!
# Verification of the stock-analysis core (indicators, signals, backtest, scanner)

A shallow embedding, in Lean 4, of the numerical core of the `stock-watcher`
scripts: the portfolio / backtest engine
(`scripts/stock_analysis/backtest.py`), the indicator libraries
(`scripts/stock_analysis/indicators.py` and the legacy
`scripts/technical_old.py`), the signal generator
(`scripts/stock_analysis/signals.py`) and the signal-reliability scanner
(`scripts/backtest.py`).

Modelling conventions:
* Python floats are modelled as exact rationals (`ℚ`).  Decimal display
  rounding (`round(x, 2)` / `round(x, 4)` in the legacy code) is not
  modelled: those calls only trim the printed precision of binary floats,
  which have no exact decimal model; the embedded recurrences use the
  unrounded values.
* A pandas `Series` with NaN entries is modelled as `List (Option ℚ)`;
  `none` stands for NaN ("not available").  Comparisons against NaN are
  false in pandas, and the embedding makes the corresponding `Bool`
  helpers return `false` on `none`.
* `datetime` index values are modelled as bar positions (`ℕ`); the
  engine's index-intersection alignment step is modelled by supplying the
  bar list and the signal list already positionally aligned.
* `math.sqrt` / `float ** 0.5` (used only for standard deviations inside
  Bollinger bands) has irrational values on most inputs, so its result is
  not a rational.  It is modelled by `sqrtQ`, which is exact whenever the
  radicand is a square of a rational and returns `0` otherwise; every
  concrete evaluation below only inspects indices whose radicand is an
  exact rational square, where `sqrtQ` agrees with the real square root.
-/

namespace StockAnalysis

/-! ## Portfolio and backtest engine (`stock_analysis/backtest.py`) -/

/-- `Position` dataclass from `backtest.py`.  Dates are bar positions. -/
structure Position where
  symbol : String
  quantity : ℚ
  entry_price : ℚ
  entry_date : ℕ
  exit_price : Option ℚ := none
  exit_date : Option ℕ := none
  position_type : String := "long"
  deriving Repr, DecidableEq

/-- One entry of `Portfolio.history`.  A BUY records its `cost` and a SELL
its `revenue`; both land in the single `amount` field here, with `action`
telling them apart exactly as the Python dict does. -/
structure Tx where
  date : ℕ
  symbol : String
  action : String
  quantity : ℚ
  price : ℚ
  amount : ℚ
  cash_after : ℚ
  deriving Repr, DecidableEq

/-- `Portfolio` from `backtest.py`: cash plus a dict of positions keyed by
symbol (modelled as an association list) and the transaction history. -/
structure Portfolio where
  initial_capital : ℚ
  cash : ℚ
  positions : List (String × Position) := []
  history : List Tx := []
  deriving Repr, DecidableEq

namespace Portfolio

/-- `Portfolio(initial_capital)` constructor. -/
def init (initial_capital : ℚ) : Portfolio :=
  { initial_capital := initial_capital, cash := initial_capital }

/-- `Portfolio.get_total_value(prices)`: cash plus the value of every
position whose symbol appears in `prices` (long positions are marked at
the quoted price; the short branch is carried over verbatim even though
the engine only ever opens long positions). -/
def get_total_value (p : Portfolio) (prices : List (String × ℚ)) : ℚ :=
  p.cash + (p.positions.foldl (fun acc sp =>
    match prices.lookup sp.1 with
    | none => acc
    | some price =>
        if sp.2.position_type = "long" then
          acc + sp.2.quantity * price
        else
          acc + sp.2.quantity * sp.2.entry_price +
            sp.2.quantity * (sp.2.entry_price - price)) 0)

/-- `Portfolio.buy`: rejects when `cost > cash`, otherwise debits
`quantity * price`, merges into an existing position at the
quantity-weighted average entry price, and appends a BUY transaction. -/
def buy (p : Portfolio) (symbol : String) (quantity price : ℚ) (date : ℕ) :
    Bool × Portfolio :=
  let cost := quantity * price
  if cost > p.cash then
    (false, p)
  else
    let cash := p.cash - cost
    let newPos :=
      match p.positions.lookup symbol with
      | some existing =>
          let total_quantity := existing.quantity + quantity
          let total_cost := existing.quantity * existing.entry_price + cost
          { symbol := symbol
            quantity := total_quantity
            entry_price := total_cost / total_quantity
            entry_date := existing.entry_date
            position_type := "long" : Position }
      | none =>
          { symbol := symbol
            quantity := quantity
            entry_price := price
            entry_date := date
            position_type := "long" : Position }
    let positions :=
      (p.positions.filter (fun sp => sp.1 ≠ symbol)) ++ [(symbol, newPos)]
    let tx : Tx :=
      { date := date, symbol := symbol, action := "BUY"
        quantity := quantity, price := price, amount := cost
        cash_after := cash }
    (true, { p with cash := cash, positions := positions,
                    history := p.history ++ [tx] })

/-- `Portfolio.sell`: rejects when there is no position for the symbol or
when selling more than is held; otherwise credits `quantity * price`,
removes the position when it reaches zero (keeping it with the reduced
quantity otherwise) and appends a SELL transaction. -/
def sell (p : Portfolio) (symbol : String) (quantity price : ℚ) (date : ℕ) :
    Bool × Portfolio :=
  match p.positions.lookup symbol with
  | none => (false, p)
  | some position =>
      if quantity > position.quantity then
        (false, p)
      else
        let revenue := quantity * price
        let cash := p.cash + revenue
        let remaining := position.quantity - quantity
        let positions :=
          if remaining = 0 then
            p.positions.filter (fun sp => sp.1 ≠ symbol)
          else
            (p.positions.filter (fun sp => sp.1 ≠ symbol)) ++
              [(symbol,
                { symbol := symbol
                  quantity := remaining
                  entry_price := position.entry_price
                  entry_date := position.entry_date
                  exit_price := position.exit_price
                  exit_date := position.exit_date
                  position_type := position.position_type : Position })]
        let tx : Tx :=
          { date := date, symbol := symbol, action := "SELL"
            quantity := quantity, price := price, amount := revenue
            cash_after := cash }
        (true, { p with cash := cash, positions := positions,
                        history := p.history ++ [tx] })

end Portfolio

/-- One OHLCV bar of the engine's input `DataFrame`. -/
structure Bar where
  open_ : ℚ
  high : ℚ
  low : ℚ
  close : ℚ
  volume : ℚ
  deriving Repr, DecidableEq

/-- The body of the per-bar loop of `BacktestEngine.run_backtest`:
record the current portfolio value, then on `signal == 1` size the order
as `int(cash * position_size / close)` shares, execute only when the
share count is positive and the fee-adjusted cost
`shares * close * (1 + transaction_cost)` fits in cash (the fee figures
in this affordability check only: `Portfolio.buy` is then called with the
raw close, so the cash actually debited is `shares * close`); on
`signal == -1` with an open position sell the whole position at the raw
close (`proceeds_per_share` with the fee is computed by the source but
never used). -/
def runBacktestStep (position_size transaction_cost : ℚ)
    (st : Portfolio × List ℚ) (date : ℕ) (bar : Bar) (signal : Int) :
    Portfolio × List ℚ :=
  let portfolio := st.1
  let value := portfolio.get_total_value [("close", bar.close)]
  let values := st.2 ++ [value]
  if signal = 1 then
    let available_cash := portfolio.cash
    let max_investment := available_cash * position_size
    let shares_to_buy : ℤ := ⌊max_investment / bar.close⌋
    if shares_to_buy > 0 then
      let cost_per_share := bar.close * (1 + transaction_cost)
      let actual_cost := (shares_to_buy : ℚ) * cost_per_share
      if actual_cost ≤ portfolio.cash then
        ((portfolio.buy "close" (shares_to_buy : ℚ) bar.close date).2, values)
      else
        (portfolio, values)
    else
      (portfolio, values)
  else if signal = -1 then
    match portfolio.positions.lookup "close" with
    | some pos => ((portfolio.sell "close" pos.quantity bar.close date).2, values)
    | none => (portfolio, values)
  else
    (portfolio, values)

/-- The trading loop of `BacktestEngine.run_backtest` over positionally
aligned bars and signals, returning the final portfolio together with the
per-bar portfolio-value series. -/
def runBacktestLoop (position_size transaction_cost : ℚ)
    (initial_capital : ℚ) (bars : List Bar) (signals : List Int) :
    Portfolio × List ℚ :=
  (List.zip bars signals).foldl
    (fun st dbs =>
      runBacktestStep position_size transaction_cost (st.1, st.2.2)
        st.2.1 dbs.1 dbs.2
      |> fun r => (r.1, st.2.1 + 1, r.2))
    (Portfolio.init initial_capital, 0, [])
  |> fun r => (r.1, r.2.2)

/-! ## Max drawdown (`backtest.py`, `max_drawdown`) -/

/-- Drawdown series `(value - running_max) / running_max`, folded with the
running maximum `c` of the values already consumed. -/
def drawdowns (c : ℚ) : List ℚ → List ℚ
  | [] => []
  | v :: vs => (v - max c v) / max c v :: drawdowns (max c v) vs

/-- Minimum of a drawdown list (`Series.min()` of a nonempty series). -/
def minList (d : ℚ) : List ℚ → ℚ
  | [] => d
  | v :: vs => minList (min d v) vs

/-- `max_drawdown(portfolio_values)`: `0.0` on fewer than two values,
otherwise the minimum of `(values - expanding max) / expanding max`. -/
def maxDrawdown : List ℚ → ℚ
  | [] => 0
  | [_] => 0
  | v :: vs =>
      match drawdowns v (v :: vs) with
      | [] => 0
      | d :: ds => minList d ds

/-! ### Drawdown lemmas -/

theorem minList_le_init (d : ℚ) (l : List ℚ) : minList d l ≤ d := by
  induction l generalizing d with
  | nil => exact le_refl d
  | cons v vs ih =>
      calc minList d (v :: vs) = minList (min d v) vs := rfl
        _ ≤ min d v := ih _
        _ ≤ d := min_le_left _ _

theorem minList_le_mem (d : ℚ) (l : List ℚ) : ∀ v ∈ l, minList d l ≤ v := by
  induction l generalizing d with
  | nil => intro v hv; cases hv
  | cons w ws ih =>
      intro v hv
      rcases List.mem_cons.mp hv with h | h
      · subst h
        calc minList d (v :: ws) = minList (min d v) ws := rfl
          _ ≤ min d v := minList_le_init _ _
          _ ≤ v := min_le_right _ _
      · exact ih (min d w) v h

theorem drawdowns_nonpos (c : ℚ) (l : List ℚ) (hc : 0 < c)
    (hl : ∀ v ∈ l, 0 < v) : ∀ d ∈ drawdowns c l, d ≤ 0 := by
  induction l generalizing c with
  | nil => intro d hd; cases hd
  | cons v vs ih =>
      intro d hd
      have hmax : 0 < max c v := lt_of_lt_of_le hc (le_max_left _ _)
      rcases List.mem_cons.mp hd with h | h
      · subst h
        exact div_nonpos_of_nonpos_of_nonneg
          (by simp [sub_nonpos, le_max_right]) (le_of_lt hmax)
      · exact ih (max c v) hmax (fun w hw => hl w (List.mem_cons_of_mem _ hw)) d h

theorem drawdowns_zero_chain (c : ℚ) (l : List ℚ) (hc : 0 < c)
    (hl : ∀ v ∈ l, 0 < v) (hz : ∀ d ∈ drawdowns c l, d = 0) :
    List.Chain (· ≤ ·) c l := by
  induction l generalizing c with
  | nil => exact List.Chain.nil
  | cons v vs ih =>
      have hmax : 0 < max c v := lt_of_lt_of_le hc (le_max_left _ _)
      have h0 : (v - max c v) / max c v = 0 :=
        hz _ (List.mem_cons_self _ _)
      have hv : v = max c v := by
        have := (div_eq_zero_iff.mp h0).resolve_right (ne_of_gt hmax)
        linarith [sub_eq_zero.mp this]
      have hcv : c ≤ v := hv ▸ le_max_left c v
      exact List.Chain.cons hcv (by
        have := ih (max c v) hmax
          (fun w hw => hl w (List.mem_cons_of_mem _ hw))
          (fun d hd => hz d (List.mem_cons_of_mem _ hd))
        rwa [← hv] at this)

/-- C7: for every series of positive portfolio values, `max_drawdown` is
nonpositive, and it is `0` only if the series is non-decreasing. -/
theorem c7_max_drawdown_nonpos (values : List ℚ)
    (h : ∀ v ∈ values, 0 < v) :
    maxDrawdown values ≤ 0 ∧
      (maxDrawdown values = 0 → values.Chain' (· ≤ ·)) := by
  match values with
  | [] => exact ⟨le_refl 0, fun _ => List.chain'_nil⟩
  | [v] => exact ⟨le_refl 0, fun _ => List.chain'_singleton v⟩
  | v :: w :: vs =>
      have hv : 0 < v := h v (List.mem_cons_self _ _)
      have htail : ∀ x ∈ w :: vs, 0 < x :=
        fun x hx => h x (List.mem_cons_of_mem _ hx)
      have hmdd : maxDrawdown (v :: w :: vs) =
          minList ((v - max v v) / max v v) (drawdowns (max v v) (w :: vs)) := by
        simp [maxDrawdown, drawdowns]
      have hfirst : (v - max v v) / max v v = 0 := by simp
      have hnonpos : ∀ d ∈ drawdowns (max v v) (w :: vs), d ≤ 0 := by
        simpa using drawdowns_nonpos v (w :: vs) hv htail
      constructor
      · rw [hmdd, hfirst]
        exact minList_le_init _ _
      · intro h0
        rw [hmdd, hfirst] at h0
        have hall : ∀ d ∈ drawdowns (max v v) (w :: vs), d = 0 := by
          intro d hd
          exact le_antisymm (hnonpos d hd) (h0 ▸ minList_le_mem _ _ d hd)
        have hchain : List.Chain (· ≤ ·) v (w :: vs) := by
          have := drawdowns_zero_chain v (w :: vs) hv htail (by simpa using hall)
          exact this
        exact hchain

/-- C7 witness: the theorem applied to the concrete value series
`[100, 110, 90]`. -/
theorem c7_max_drawdown_nonpos_witness :
    (∀ v ∈ ([100, 110, 90] : List ℚ), 0 < v) ∧
      (maxDrawdown [100, 110, 90] ≤ 0 ∧
        (maxDrawdown [100, 110, 90] = 0 →
          List.Chain' (· ≤ ·) ([100, 110, 90] : List ℚ))) :=
  ⟨by decide, c7_max_drawdown_nonpos [100, 110, 90] (by decide)⟩

/-- C9: a buy whose cost exceeds available cash, a sell with no open
position for the symbol, and a sell of more than the held quantity all
return `False` and leave the portfolio (cash, positions, history)
unchanged. -/
theorem c9_rejected_orders_are_noops (p : Portfolio) (symbol : String)
    (quantity price : ℚ) (date : ℕ) :
    (quantity * price > p.cash →
      p.buy symbol quantity price date = (false, p)) ∧
    (p.positions.lookup symbol = none →
      p.sell symbol quantity price date = (false, p)) ∧
    (∀ pos, p.positions.lookup symbol = some pos → quantity > pos.quantity →
      p.sell symbol quantity price date = (false, p)) := by
  refine ⟨fun hcost => ?_, fun hnone => ?_, fun pos hsome hq => ?_⟩
  · simp only [Portfolio.buy, if_pos hcost]
  · simp only [Portfolio.sell, hnone]
  · simp only [Portfolio.sell, hsome, if_pos hq]

/-- A concrete portfolio used to witness C9: cash `10`, holding `2` shares
of `"close"` bought at `100` on bar `0`. -/
def c9Portfolio : Portfolio :=
  { initial_capital := 10, cash := 10
    positions := [("close",
      { symbol := "close", quantity := 2, entry_price := 100
        entry_date := 0 })]
    history := [] }

unseal Rat.mul Rat.add Rat.sub Rat.inv in
/-- C9 witness: the rejection no-ops evaluated on `c9Portfolio`: a buy of
`5` shares at `100` (cost `500 > 10`), a sell of an unknown symbol, and a
sell of `5 > 2` held shares. -/
theorem c9_rejected_orders_are_noops_witness :
    c9Portfolio.buy "close" 5 100 1 = (false, c9Portfolio) ∧
    c9Portfolio.sell "other" 5 100 1 = (false, c9Portfolio) ∧
    c9Portfolio.sell "close" 5 100 1 = (false, c9Portfolio) :=
  ⟨(c9_rejected_orders_are_noops c9Portfolio "close" 5 100 1).1 (by decide),
   (c9_rejected_orders_are_noops c9Portfolio "other" 5 100 1).2.1 (by decide),
   (c9_rejected_orders_are_noops c9Portfolio "close" 5 100 1).2.2
     { symbol := "close", quantity := 2, entry_price := 100, entry_date := 0 }
     (by decide) (by decide)⟩

/-- The single-bar `DataFrame` row of the C1 scenario: close `100`. -/
def bar100 : Bar := { open_ := 100, high := 100, low := 100, close := 100, volume := 1000 }

set_option maxRecDepth 10000 in
unseal Rat.mul Rat.add Rat.sub Rat.inv in
/-- C1 counterexample: the spec scenario (cash `100000`, position size
`0.1`, transaction cost `0.001`, one buy signal at close `100`) buys
`int(10000 / 100) = 100` shares — not `floor(10000 / 100.1) = 99` — and
the cash debited is `100 * 100 = 10000` with no fee, leaving `90000`
rather than `90100.1`. -/
theorem c1_scenario_counterexample :
    ((runBacktestLoop (1/10) (1/1000) 100000 [bar100] [1]).1.history.map
        Tx.quantity = [100]) ∧
    (runBacktestLoop (1/10) (1/1000) 100000 [bar100] [1]).1.cash = 90000 ∧
    ¬(((runBacktestLoop (1/10) (1/1000) 100000 [bar100] [1]).1.history.map
        Tx.quantity = [99]) ∧
      (runBacktestLoop (1/10) (1/1000) 100000 [bar100] [1]).1.cash =
        100000 - 99 * 100 * (1 + 1/1000)) := by
  decide

/-- C1 (amended): on every buy-signal bar the engine buys exactly
`n = int(cash * position_size / close)` shares, executing only when
`n > 0` and the fee-adjusted cost `n * close * (1 + transaction_cost)`
fits in cash; the executed buy debits `n * close` (the fee enters the
affordability check only), opening a fresh position at the close or
merging into an already-open one at the quantity-weighted average entry
price, and otherwise the portfolio is unchanged. -/
theorem c1_buy_sizing_amended (position_size transaction_cost : ℚ)
    (p : Portfolio) (vals : List ℚ) (date : ℕ) (bar : Bar)
    (hclose : 0 < bar.close) (htc : 0 ≤ transaction_cost) :
    (0 < ⌊p.cash * position_size / bar.close⌋ ∧
        (⌊p.cash * position_size / bar.close⌋ : ℚ) *
          (bar.close * (1 + transaction_cost)) ≤ p.cash →
      (runBacktestStep position_size transaction_cost (p, vals) date bar 1).1 =
        { p with
            cash := p.cash - (⌊p.cash * position_size / bar.close⌋ : ℚ) * bar.close
            positions := p.positions.filter (fun sp => sp.1 ≠ "close") ++
              [("close",
                match p.positions.lookup "close" with
                | some existing =>
                    { symbol := "close"
                      quantity := existing.quantity +
                        (⌊p.cash * position_size / bar.close⌋ : ℚ)
                      entry_price :=
                        (existing.quantity * existing.entry_price +
                          (⌊p.cash * position_size / bar.close⌋ : ℚ) * bar.close) /
                        (existing.quantity +
                          (⌊p.cash * position_size / bar.close⌋ : ℚ))
                      entry_date := existing.entry_date }
                | none =>
                    { symbol := "close"
                      quantity := (⌊p.cash * position_size / bar.close⌋ : ℚ)
                      entry_price := bar.close
                      entry_date := date })]
            history := p.history ++
              [{ date := date, symbol := "close", action := "BUY"
                 quantity := (⌊p.cash * position_size / bar.close⌋ : ℚ)
                 price := bar.close
                 amount := (⌊p.cash * position_size / bar.close⌋ : ℚ) * bar.close
                 cash_after := p.cash -
                   (⌊p.cash * position_size / bar.close⌋ : ℚ) * bar.close }] }) ∧
    (¬(0 < ⌊p.cash * position_size / bar.close⌋ ∧
        (⌊p.cash * position_size / bar.close⌋ : ℚ) *
          (bar.close * (1 + transaction_cost)) ≤ p.cash) →
      (runBacktestStep position_size transaction_cost (p, vals) date bar 1).1 = p) := by
  constructor
  · rintro ⟨hn, hafford⟩
    have hnq : (0 : ℚ) ≤ (⌊p.cash * position_size / bar.close⌋ : ℚ) := by
      exact_mod_cast le_of_lt hn
    have hcost_le :
        (⌊p.cash * position_size / bar.close⌋ : ℚ) * bar.close ≤ p.cash := by
      calc (⌊p.cash * position_size / bar.close⌋ : ℚ) * bar.close
          ≤ (⌊p.cash * position_size / bar.close⌋ : ℚ) *
              (bar.close * (1 + transaction_cost)) := by
            apply mul_le_mul_of_nonneg_left _ hnq
            nlinarith
        _ ≤ p.cash := hafford
    simp only [runBacktestStep, if_pos rfl, if_pos hn, if_pos hafford,
      Portfolio.buy]
    rw [if_neg (not_lt.mpr hcost_le)]
    cases hlook : p.positions.lookup "close" with
    | none => simp [hlook]
    | some existing => simp [hlook]
  · intro hreject
    simp only [runBacktestStep, if_pos rfl]
    by_cases hn : 0 < ⌊p.cash * position_size / bar.close⌋
    · have hnot : ¬((⌊p.cash * position_size / bar.close⌋ : ℚ) *
          (bar.close * (1 + transaction_cost)) ≤ p.cash) :=
        fun hle => hreject ⟨hn, hle⟩
      rw [if_pos hn, if_neg hnot]
      simp
    · rw [if_neg hn]
      simp

set_option maxRecDepth 10000 in
unseal Rat.mul Rat.add Rat.sub Rat.inv in
/-- The portfolio after the first buy of the two-consecutive-buys trace:
cash `90000` with an open 100-share position on `"close"`. -/
def c1SecondBuyPortfolio : Portfolio :=
  (runBacktestStep (1/10) (1/1000) (Portfolio.init 100000, []) 0 bar100 1).1

set_option maxRecDepth 10000 in
unseal Rat.mul Rat.add Rat.sub Rat.inv in
/-- C1 (amended) witness: on the second of two consecutive buy signals at
close `100` the engine already holds 100 shares; the hypotheses hold with
`n = ⌊90000 / 10 / 100⌋ = 90`, and the executed buy goes through the
merge path, leaving cash `90000 - 90 * 100 = 81000`. -/
theorem c1_buy_sizing_amended_witness :
    ((0 : ℚ) < bar100.close ∧ (0 : ℚ) ≤ 1/1000 ∧
      c1SecondBuyPortfolio.positions.lookup "close" ≠ none ∧
      0 < ⌊c1SecondBuyPortfolio.cash * (1/10) / bar100.close⌋ ∧
      (⌊c1SecondBuyPortfolio.cash * (1/10) / bar100.close⌋ : ℚ) *
        (bar100.close * (1 + 1/1000)) ≤ c1SecondBuyPortfolio.cash) ∧
    (runBacktestStep (1/10) (1/1000) (c1SecondBuyPortfolio, []) 1 bar100 1).1.cash
      = 81000 := by
  refine ⟨by decide, ?_⟩
  have h := (c1_buy_sizing_amended (1/10) (1/1000) c1SecondBuyPortfolio
    [] 1 bar100 (by decide) (by decide)).1 (by decide)
  rw [h]
  decide

set_option maxRecDepth 10000 in
unseal Rat.mul Rat.add Rat.sub Rat.inv in
/-- C2 (code bug evaluation): over bars `[100, 100]` with signals
`[buy, sell]` and `transaction_cost = 0.001`, the SELL transaction
credits the full `100 * 100 = 10000` — not `100 * 100 * (1 - 0.001)` —
and the final cash is exactly the initial `100000`: conservation holds
with zero fee leakage, while the claim requires leakage of exactly
`shares * close * transaction_cost = 10` per trade. -/
theorem c2_sell_credits_full_close :
    ((runBacktestLoop (1/10) (1/1000) 100000 [bar100, bar100]
        [1, -1]).1.history.map Tx.amount = [10000, 10000]) ∧
    (runBacktestLoop (1/10) (1/1000) 100000 [bar100, bar100] [1, -1]).1.cash
      = 100000 ∧
    (10000 : ℚ) ≠ 100 * 100 * (1 - 1/1000) := by
  decide

/-! ## Legacy indicator library (`scripts/technical_old.py`)

These are the hand-rolled list-based indicator functions.  The daily
K-line record keeps only the fields the embedded computations read
(`high`, `low`, `close`); `date`, `open` and `volume` are never used by
`calc_kdj`, the signal rules or the scanner's return computation. -/

/-- One daily K-line as parsed by `fetch_daily_klines`. -/
structure Kline where
  high : ℚ
  low : ℚ
  close : ℚ
  deriving Repr, DecidableEq

/-- `max(l)` of a nonempty list (Python's builtin). -/
def listMax : List ℚ → ℚ
  | [] => 0
  | x :: xs => xs.foldl max x

/-- `min(l)` of a nonempty list (Python's builtin). -/
def listMin : List ℚ → ℚ
  | [] => 0
  | x :: xs => xs.foldl min x

/-- `calc_ma(closes, period)`: `None` for the first `period - 1` slots,
then the arithmetic mean of the trailing `period` closes; an all-`None`
list when the series is shorter than the window. -/
def calc_ma (closes : List ℚ) (period : ℕ) : List (Option ℚ) :=
  if closes.length < period then
    List.replicate closes.length none
  else
    (List.range closes.length).map (fun i =>
      if i + 1 < period then none
      else some ((((closes.drop (i + 1 - period)).take period).sum) / period))

/-- The recurrence of `calc_ema`: `ema_i = prev * (1 - k) + v_i * k`. -/
def emaAux (k prev : ℚ) : List ℚ → List ℚ
  | [] => []
  | v :: vs =>
      let e := prev * (1 - k) + v * k
      e :: emaAux k e vs

/-- `calc_ema(values, period)`: seeded with the first value, smoothing
factor `k = 2 / (period + 1)`. -/
def calc_ema (values : List ℚ) (period : ℕ) : List ℚ :=
  match values with
  | [] => []
  | v :: vs => v :: emaAux (2 / ((period : ℚ) + 1)) v vs

/-- `calc_macd(closes, fast, slow, signal)`: `dif = ema_fast - ema_slow`,
`dea = ema(dif, signal)`, and the histogram `macd = (dif - dea) * 2`. -/
def calc_macd (closes : List ℚ) (fast slow signal : ℕ) :
    List ℚ × List ℚ × List ℚ :=
  let ema_fast := calc_ema closes fast
  let ema_slow := calc_ema closes slow
  let dif := List.zipWith (fun f s => f - s) ema_fast ema_slow
  let dea := calc_ema dif signal
  let macd := List.zipWith (fun d e => (d - e) * 2) dif dea
  (dif, dea, macd)

/-- The raw stochastic value of `calc_kdj` at bar `i`: highest high and
lowest low over `klines[max(0, i - n + 1) : i + 1]`, with `rsv = 50`
when they coincide. -/
def rsvAt (klines : List Kline) (n i : ℕ) : ℚ :=
  let window := (klines.take (i + 1)).drop (i + 1 - n)
  let hn := listMax (window.map Kline.high)
  let ln := listMin (window.map Kline.low)
  let c := ((klines.drop i).headD ⟨0, 0, 0⟩).close
  if hn ≠ ln then (c - ln) / (hn - ln) * 100 else 50

/-- The `calc_kdj` loop: state `(k, d)` seeded at `(50, 50)`; at each bar
`k := (m1-1)/m1 * k + 1/m1 * rsv`, `d := (m2-1)/m2 * d + 1/m2 * k`,
`j := 3k - 2d`.  The suffix argument drives the structural recursion
while `i` tracks the absolute bar index. -/
def kdjGo (klines : List Kline) (n m1 m2 : ℕ) (k d : ℚ) (i : ℕ) :
    List Kline → List (ℚ × ℚ × ℚ)
  | [] => []
  | _ :: rest =>
      let rsv := rsvAt klines n i
      let k' := ((m1 : ℚ) - 1) / m1 * k + 1 / m1 * rsv
      let d' := ((m2 : ℚ) - 1) / m2 * d + 1 / m2 * k'
      (k', d', 3 * k' - 2 * d') :: kdjGo klines n m1 m2 k' d' (i + 1) rest

/-- `calc_kdj(klines, n, m1, m2)` returning the `%K`, `%D`, `%J` lists. -/
def calc_kdj (klines : List Kline) (n m1 m2 : ℕ) :
    List ℚ × List ℚ × List ℚ :=
  let triples := kdjGo klines n m1 m2 50 50 0 klines
  (triples.map (·.1), triples.map (·.2.1), triples.map (·.2.2))

/-- Consecutive differences `closes[i] - closes[i-1]` (one per bar after
the first). -/
def diffs (closes : List ℚ) : List ℚ :=
  List.zipWith (fun cur prev => cur - prev) closes.tail closes

/-- The RSI value the legacy code emits from smoothed averages:
`rs = avg_gain / avg_loss` when `avg_loss ≠ 0`, else `rs = 100`;
`rsi = 100 - 100 / (1 + rs)`. -/
def rsiPointOld (ag al : ℚ) : ℚ :=
  100 - 100 / (1 + (if al ≠ 0 then ag / al else 100))

/-- The Wilder smoothing loop of `calc_rsi` over the remaining diffs. -/
def wilderOld (p : ℕ) (ag al : ℚ) : List ℚ → List (Option ℚ)
  | [] => []
  | d :: rest =>
      let ag' := (ag * ((p : ℚ) - 1) + max d 0) / p
      let al' := (al * ((p : ℚ) - 1) + max (-d) 0) / p
      some (rsiPointOld ag' al') :: wilderOld p ag' al' rest

/-- `calc_rsi(closes, period)`: all-`None` when too short; otherwise
`None` for the first `period` bars, a first value from simple average
gains/losses over the first `period` moves, then Wilder-smoothed. -/
def calc_rsi (closes : List ℚ) (period : ℕ) : List (Option ℚ) :=
  if closes.length < period + 1 then
    List.replicate closes.length none
  else
    let ds := diffs closes
    let ag := (((ds.take period).map (fun d => max d 0)).sum) / period
    let al := (((ds.take period).map (fun d => max (-d) 0)).sum) / period
    List.replicate period none ++
      [some (rsiPointOld ag al)] ++ wilderOld period ag al (ds.drop period)

/-! ## Library indicators (`scripts/stock_analysis/indicators.py`)

These operate on pandas Series; NaN-able series are `List (Option ℚ)`. -/

/-- Rolling-window mean (`Series.rolling(window).mean()`): `none` before
the window fills. -/
def rollingMean (xs : List ℚ) (window : ℕ) : List (Option ℚ) :=
  (List.range xs.length).map (fun i =>
    if i + 1 < window then none
    else some ((((xs.drop (i + 1 - window)).take window).sum) / window))

/-- `moving_average(data, window)` from `indicators.py` (the validation
that `window > 0` and `len(data) ≥ window` appears as theorem
hypotheses). -/
def movingAverageLib (data : List ℚ) (window : ℕ) : List (Option ℚ) :=
  rollingMean data window

/-- The recurrence behind pandas `Series.ewm(span=window).mean()` with
the default `adjust=True`: with `w = 1 - 2/(span+1)`, the value at `t`
is `(Σ_{j≤t} w^(t-j) x_j) / (Σ_{i≤t} w^i)`, maintained through the
numerator/denominator recurrences `num ← num * w + x`, `den ← den * w + 1`. -/
def ewmGo (w num den : ℚ) : List ℚ → List ℚ
  | [] => []
  | x :: xs =>
      let num' := num * w + x
      let den' := den * w + 1
      num' / den' :: ewmGo w num' den' xs

/-- `ema(data, window)` from `indicators.py`: pandas adjusted
exponentially weighted mean with `span = window`. -/
def emaLib (data : List ℚ) (window : ℕ) : List ℚ :=
  ewmGo (1 - 2 / ((window : ℚ) + 1)) 0 0 data

/-- `macd(data, fast, slow, signal)` from `indicators.py`:
`macd_line = ema(fast) - ema(slow)`, `signal_line = ema(macd_line,
signal)`, `histogram = macd_line - signal_line`. -/
def macdLib (data : List ℚ) (fast slow signal : ℕ) :
    List ℚ × List ℚ × List ℚ :=
  let ema_fast := emaLib data fast
  let ema_slow := emaLib data slow
  let macd_line := List.zipWith (fun f s => f - s) ema_fast ema_slow
  let signal_line := emaLib macd_line signal
  let histogram := List.zipWith (fun m s => m - s) macd_line signal_line
  (macd_line, signal_line, histogram)

/-- Gain series of `rsi` in `indicators.py`:
`delta.where(delta > 0, 0).fillna(0)` — the bar-0 NaN becomes `0`. -/
def gainsOf (data : List ℚ) : List ℚ :=
  match data with
  | [] => []
  | _ :: _ => 0 :: (diffs data).map (fun d => max d 0)

/-- Loss series of `rsi` in `indicators.py`:
`(-delta.where(delta < 0, 0)).fillna(0)`. -/
def lossesOf (data : List ℚ) : List ℚ :=
  match data with
  | [] => []
  | _ :: _ => 0 :: (diffs data).map (fun d => max (-d) 0)

/-- The RSI value `indicators.py` emits:
`rs = avg_gain / avg_loss.replace(0, 1e-10)`, `rsi = 100 - 100/(1+rs)`. -/
def rsiPointLib (ag al : ℚ) : ℚ :=
  100 - 100 / (1 + ag / (if al = 0 then 1 / 10 ^ 10 else al))

/-- The explicit Wilder loop of `rsi` in `indicators.py` over the
remaining `(gain, loss)` pairs. -/
def wilderLib (w : ℕ) (ag al : ℚ) : List (ℚ × ℚ) → List (Option ℚ)
  | [] => []
  | gl :: rest =>
      let ag' := (ag * ((w : ℚ) - 1) + gl.1) / w
      let al' := (al * ((w : ℚ) - 1) + gl.2) / w
      some (rsiPointLib ag' al') :: wilderLib w ag' al' rest

/-- `rsi(data, window)` from `indicators.py`: NaN for the first
`window - 1` bars, a seed at bar `window - 1` from the rolling means of
the gain/loss series (which include the artificial `0` at bar 0), then
the in-place Wilder loop from bar `window` on. -/
def rsiLib (data : List ℚ) (window : ℕ) : List (Option ℚ) :=
  let gains := gainsOf data
  let losses := lossesOf data
  let ag := ((gains.take window).sum) / window
  let al := ((losses.take window).sum) / window
  List.replicate (window - 1) none ++
    [some (rsiPointLib ag al)] ++
      wilderLib window ag al ((gains.drop window).zip (losses.drop window))

/-! ### Indexing helpers -/

theorem list_getD_map {α β : Type} (f : α → β) (l : List α) (i : ℕ)
    (a : α) (b : β) (h : i < l.length) :
    (l.map f).getD i b = f (l.getD i a) := by
  induction l generalizing i with
  | nil => simp at h
  | cons x xs ih =>
      cases i with
      | zero => simp
      | succ j =>
          simp only [List.map_cons, List.getD_cons_succ]
          exact ih j (by simpa using h)

theorem list_getD_zipWith {α β γ : Type} (f : α → β → γ) (l1 : List α)
    (l2 : List β) (i : ℕ) (a : α) (b : β) (c : γ)
    (h1 : i < l1.length) (h2 : i < l2.length) :
    (List.zipWith f l1 l2).getD i c = f (l1.getD i a) (l2.getD i b) := by
  induction l1 generalizing l2 i with
  | nil => simp at h1
  | cons x xs ih =>
      cases l2 with
      | nil => simp at h2
      | cons y ys =>
          cases i with
          | zero => simp
          | succ j =>
              simp only [List.zipWith_cons_cons, List.getD_cons_succ]
              exact ih ys j (by simpa using h1) (by simpa using h2)

theorem ewmGo_length (w num den : ℚ) (l : List ℚ) :
    (ewmGo w num den l).length = l.length := by
  induction l generalizing num den with
  | nil => rfl
  | cons x xs ih => simp [ewmGo, ih]

theorem emaLib_length (data : List ℚ) (window : ℕ) :
    (emaLib data window).length = data.length :=
  ewmGo_length _ _ _ _

/-- C5: in `indicators.macd` the histogram equals
`macd_line - signal_line` exactly at every index (all three series are
full length, defined from bar 0 on). -/
theorem c5_macd_hist_identity (data : List ℚ) (fast slow signal : ℕ)
    (hf : 0 < fast) (hfs : fast < slow) (hsig : 0 < signal)
    (hlen : max slow signal ≤ data.length) :
    ((macdLib data fast slow signal).1.length = data.length ∧
      (macdLib data fast slow signal).2.1.length = data.length ∧
      (macdLib data fast slow signal).2.2.length = data.length) ∧
    ∀ i, i < data.length →
      (macdLib data fast slow signal).2.2.getD i 0 =
        (macdLib data fast slow signal).1.getD i 0 -
          (macdLib data fast slow signal).2.1.getD i 0 := by
  have hlf : (emaLib data fast).length = data.length := emaLib_length _ _
  have hls : (emaLib data slow).length = data.length := emaLib_length _ _
  have hml : (List.zipWith (fun f s => f - s) (emaLib data fast)
      (emaLib data slow)).length = data.length := by
    simp [List.length_zipWith, hlf, hls]
  have hsl : (emaLib (List.zipWith (fun f s => f - s) (emaLib data fast)
      (emaLib data slow)) signal).length = data.length := by
    rw [emaLib_length, hml]
  refine ⟨⟨hml, hsl, by simp [macdLib, List.length_zipWith, hml, hsl]⟩, ?_⟩
  intro i hi
  show (List.zipWith (fun m s => m - s) _ _).getD i 0 = _
  exact list_getD_zipWith _ _ _ i 0 0 0 (hml ▸ hi) (hsl ▸ hi)

/-- C5 witness: the identity instantiated on the five-bar series
`[100, 101, 103, 102, 105]` with `fast=2, slow=3, signal=2`. -/
theorem c5_macd_hist_identity_witness :
    ((0 < 2 ∧ 2 < 3 ∧ 0 < 2 ∧
        max 3 2 ≤ ([100, 101, 103, 102, 105] : List ℚ).length)) ∧
    (((macdLib [100, 101, 103, 102, 105] 2 3 2).1.length = 5 ∧
        (macdLib [100, 101, 103, 102, 105] 2 3 2).2.1.length = 5 ∧
        (macdLib [100, 101, 103, 102, 105] 2 3 2).2.2.length = 5) ∧
      ∀ i, i < ([100, 101, 103, 102, 105] : List ℚ).length →
        (macdLib [100, 101, 103, 102, 105] 2 3 2).2.2.getD i 0 =
          (macdLib [100, 101, 103, 102, 105] 2 3 2).1.getD i 0 -
            (macdLib [100, 101, 103, 102, 105] 2 3 2).2.1.getD i 0) :=
  ⟨⟨by decide, by decide, by decide, by decide⟩,
   c5_macd_hist_identity [100, 101, 103, 102, 105] 2 3 2
     (by decide) (by decide) (by decide) (by decide)⟩

set_option maxRecDepth 10000 in
unseal Rat.mul Rat.add Rat.sub Rat.inv in
/-- C5 counterexample: the legacy `calc_macd` emits a histogram of
`(dif - dea) * 2`, so on `closes = [100, 200]` (defaults 12/26/9) the
histogram at bar 1 is `4480/351`, twice `dif - dea = 2240/351`, and the
claimed exact identity `hist = dif - dea` fails. -/
theorem c5_calc_macd_counterexample :
    (calc_macd [100, 200] 12 26 9).2.2.getD 1 0 =
        ((calc_macd [100, 200] 12 26 9).1.getD 1 0 -
          (calc_macd [100, 200] 12 26 9).2.1.getD 1 0) * 2 ∧
    (calc_macd [100, 200] 12 26 9).1.getD 1 0 -
        (calc_macd [100, 200] 12 26 9).2.1.getD 1 0 ≠ 0 ∧
    (calc_macd [100, 200] 12 26 9).2.2.getD 1 0 ≠
      (calc_macd [100, 200] 12 26 9).1.getD 1 0 -
        (calc_macd [100, 200] 12 26 9).2.1.getD 1 0 := by
  refine ⟨?_, ?_, ?_⟩ <;> decide

/-! ### RSI bound lemmas -/

theorem rsiPointLib_bounds (ag al : ℚ) (hag : 0 ≤ ag) (hal : 0 ≤ al) :
    0 ≤ rsiPointLib ag al ∧ rsiPointLib ag al ≤ 100 := by
  unfold rsiPointLib
  have hden : 0 < (if al = 0 then (1 : ℚ) / 10 ^ 10 else al) := by
    split
    · norm_num
    · exact lt_of_le_of_ne hal (Ne.symm (by assumption))
  have hrs : 0 ≤ ag / (if al = 0 then (1 : ℚ) / 10 ^ 10 else al) :=
    div_nonneg hag (le_of_lt hden)
  have h1 : (0 : ℚ) < 1 + ag / (if al = 0 then (1 : ℚ) / 10 ^ 10 else al) := by
    linarith
  have hq_pos : 0 < 100 / (1 + ag / (if al = 0 then (1 : ℚ) / 10 ^ 10 else al)) := by
    positivity
  have hq_le : 100 / (1 + ag / (if al = 0 then (1 : ℚ) / 10 ^ 10 else al)) ≤ 100 := by
    rw [div_le_iff h1]; nlinarith
  constructor <;> linarith

theorem rsiPointOld_bounds (ag al : ℚ) (hag : 0 ≤ ag) (hal : 0 ≤ al) :
    0 ≤ rsiPointOld ag al ∧ rsiPointOld ag al ≤ 100 := by
  unfold rsiPointOld
  have hrs : 0 ≤ (if al ≠ 0 then ag / al else 100) := by
    split
    · exact div_nonneg hag hal
    · norm_num
  have h1 : (0 : ℚ) < 1 + (if al ≠ 0 then ag / al else 100) := by linarith
  have hq_pos : 0 < 100 / (1 + (if al ≠ 0 then ag / al else 100)) := by
    positivity
  have hq_le : 100 / (1 + (if al ≠ 0 then ag / al else 100)) ≤ 100 := by
    rw [div_le_iff h1]; nlinarith
  constructor <;> linarith

theorem wilderLib_bounds (w : ℕ) (hw : 0 < w) :
    ∀ (pairs : List (ℚ × ℚ)) (ag al : ℚ), 0 ≤ ag → 0 ≤ al →
      (∀ gl ∈ pairs, 0 ≤ gl.1 ∧ 0 ≤ gl.2) →
      ∀ r : ℚ, some r ∈ wilderLib w ag al pairs → 0 ≤ r ∧ r ≤ 100 := by
  intro pairs
  induction pairs with
  | nil => intro ag al _ _ _ r hr; cases hr
  | cons gl rest ih =>
      intro ag al hag hal hpairs r hr
      have hw1 : (0 : ℚ) ≤ (w : ℚ) - 1 := by
        have : (1 : ℚ) ≤ (w : ℚ) := by exact_mod_cast hw
        linarith
      have hwq : (0 : ℚ) ≤ (w : ℚ) := by positivity
      have hgl := hpairs gl (List.mem_cons_self _ _)
      have hag' : 0 ≤ (ag * ((w : ℚ) - 1) + gl.1) / w :=
        div_nonneg (by nlinarith [hgl.1]) hwq
      have hal' : 0 ≤ (al * ((w : ℚ) - 1) + gl.2) / w :=
        div_nonneg (by nlinarith [hgl.2]) hwq
      rcases List.mem_cons.mp hr with h | h
      · cases h
        exact rsiPointLib_bounds _ _ hag' hal'
      · exact ih _ _ hag' hal'
          (fun x hx => hpairs x (List.mem_cons_of_mem _ hx)) r h

theorem wilderOld_bounds (p : ℕ) (hp : 0 < p) :
    ∀ (ds : List ℚ) (ag al : ℚ), 0 ≤ ag → 0 ≤ al →
      ∀ r : ℚ, some r ∈ wilderOld p ag al ds → 0 ≤ r ∧ r ≤ 100 := by
  intro ds
  induction ds with
  | nil => intro ag al _ _ r hr; cases hr
  | cons d rest ih =>
      intro ag al hag hal r hr
      have hp1 : (0 : ℚ) ≤ (p : ℚ) - 1 := by
        have : (1 : ℚ) ≤ (p : ℚ) := by exact_mod_cast hp
        linarith
      have hpq : (0 : ℚ) ≤ (p : ℚ) := by positivity
      have hag' : 0 ≤ (ag * ((p : ℚ) - 1) + max d 0) / p :=
        div_nonneg (by nlinarith [le_max_right d 0]) hpq
      have hal' : 0 ≤ (al * ((p : ℚ) - 1) + max (-d) 0) / p :=
        div_nonneg (by nlinarith [le_max_right (-d) 0]) hpq
      rcases List.mem_cons.mp hr with h | h
      · cases h
        exact rsiPointOld_bounds _ _ hag' hal'
      · exact ih _ _ hag' hal' r h

theorem gainsOf_nonneg (data : List ℚ) : ∀ x ∈ gainsOf data, 0 ≤ x := by
  intro x hx
  unfold gainsOf at hx
  match data, hx with
  | _ :: _, hx =>
      rcases List.mem_cons.mp hx with h | h
      · simp [h]
      · obtain ⟨d, _, rfl⟩ := List.mem_map.mp h
        exact le_max_right d 0

theorem lossesOf_nonneg (data : List ℚ) : ∀ x ∈ lossesOf data, 0 ≤ x := by
  intro x hx
  unfold lossesOf at hx
  match data, hx with
  | _ :: _, hx =>
      rcases List.mem_cons.mp hx with h | h
      · simp [h]
      · obtain ⟨d, _, rfl⟩ := List.mem_map.mp h
        exact le_max_right (-d) 0

/-- C6: every defined RSI value is in `[0, 100]`, for both the pandas
implementation (`indicators.rsi`, with `avg_loss.replace(0, 1e-10)`
keeping the quotient defined) and the legacy `calc_rsi`. -/
theorem c6_rsi_in_range (data : List ℚ) (window period : ℕ)
    (hw : 0 < window) (hlen : window + 1 ≤ data.length)
    (hp : 0 < period) (hplen : period + 1 ≤ data.length) :
    (∀ r : ℚ, some r ∈ rsiLib data window → 0 ≤ r ∧ r ≤ 100) ∧
    (∀ r : ℚ, some r ∈ calc_rsi data period → 0 ≤ r ∧ r ≤ 100) := by
  constructor
  · intro r hr
    unfold rsiLib at hr
    have hag : 0 ≤ (((gainsOf data).take window).sum) / (window : ℚ) := by
      apply div_nonneg _ (by positivity)
      exact List.sum_nonneg (fun x hx =>
        gainsOf_nonneg data x (List.mem_of_mem_take hx))
    have hal : 0 ≤ (((lossesOf data).take window).sum) / (window : ℚ) := by
      apply div_nonneg _ (by positivity)
      exact List.sum_nonneg (fun x hx =>
        lossesOf_nonneg data x (List.mem_of_mem_take hx))
    rcases List.mem_append.mp hr with h | h
    · rcases List.mem_append.mp h with h' | h'
      · exact absurd (List.eq_of_mem_replicate h') (by simp)
      · rcases List.mem_singleton.mp h' with h''
        cases Option.some.inj h''
        exact rsiPointLib_bounds _ _ hag hal
    · refine wilderLib_bounds window hw _ _ _ hag hal ?_ r h
      intro gl hgl
      rcases List.mem_zip hgl with ⟨h1, h2⟩
      exact ⟨gainsOf_nonneg data _ (List.mem_of_mem_drop h1),
        lossesOf_nonneg data _ (List.mem_of_mem_drop h2)⟩
  · intro r hr
    unfold calc_rsi at hr
    rw [if_neg (by omega)] at hr
    have hag : 0 ≤ ((((diffs data).take period).map
        (fun d => max d 0)).sum) / (period : ℚ) := by
      apply div_nonneg _ (by positivity)
      apply List.sum_nonneg
      intro x hx
      obtain ⟨d, _, rfl⟩ := List.mem_map.mp hx
      exact le_max_right d 0
    have hal : 0 ≤ ((((diffs data).take period).map
        (fun d => max (-d) 0)).sum) / (period : ℚ) := by
      apply div_nonneg _ (by positivity)
      apply List.sum_nonneg
      intro x hx
      obtain ⟨d, _, rfl⟩ := List.mem_map.mp hx
      exact le_max_right (-d) 0
    rcases List.mem_append.mp hr with h | h
    · rcases List.mem_append.mp h with h' | h'
      · exact absurd (List.eq_of_mem_replicate h') (by simp)
      · rcases List.mem_singleton.mp h' with h''
        cases Option.some.inj h''
        exact rsiPointOld_bounds _ _ hag hal
    · exact wilderOld_bounds period hp _ _ _ hag hal r h

unseal Rat.mul Rat.add Rat.sub Rat.inv in
/-- C6 witness: the range property instantiated on the four-bar series
`[100, 102, 101, 103]` with `window = period = 2`. -/
theorem c6_rsi_in_range_witness :
    ((0 : ℕ) < 2 ∧ 2 + 1 ≤ ([100, 102, 101, 103] : List ℚ).length) ∧
    ((∀ r : ℚ, some r ∈ rsiLib [100, 102, 101, 103] 2 → 0 ≤ r ∧ r ≤ 100) ∧
      (∀ r : ℚ, some r ∈ calc_rsi [100, 102, 101, 103] 2 →
        0 ≤ r ∧ r ≤ 100)) :=
  ⟨⟨by decide, by decide⟩,
   c6_rsi_in_range [100, 102, 101, 103] 2 2 (by decide) (by decide)
     (by decide) (by decide)⟩

/-! ### KDJ -/

theorem kdjGo_cons (klines : List Kline) (n m1 m2 : ℕ) (k d : ℚ) (i : ℕ)
    (x : Kline) (rest : List Kline) :
    kdjGo klines n m1 m2 k d i (x :: rest) =
      (((m1 : ℚ) - 1) / m1 * k + 1 / m1 * rsvAt klines n i,
       ((m2 : ℚ) - 1) / m2 * d + 1 / m2 *
         (((m1 : ℚ) - 1) / m1 * k + 1 / m1 * rsvAt klines n i),
       3 * (((m1 : ℚ) - 1) / m1 * k + 1 / m1 * rsvAt klines n i) -
         2 * (((m2 : ℚ) - 1) / m2 * d + 1 / m2 *
           (((m1 : ℚ) - 1) / m1 * k + 1 / m1 * rsvAt klines n i))) ::
      kdjGo klines n m1 m2
        (((m1 : ℚ) - 1) / m1 * k + 1 / m1 * rsvAt klines n i)
        (((m2 : ℚ) - 1) / m2 * d + 1 / m2 *
          (((m1 : ℚ) - 1) / m1 * k + 1 / m1 * rsvAt klines n i))
        (i + 1) rest := rfl

theorem kdjGo_spec (klines : List Kline) (n m1 m2 : ℕ) :
    ∀ (suffix : List Kline) (k d : ℚ) (i : ℕ),
      (kdjGo klines n m1 m2 k d i suffix).length = suffix.length ∧
      (∀ j, j < suffix.length →
        ((kdjGo klines n m1 m2 k d i suffix).getD j (0, 0, 0)).1 =
          ((m1 : ℚ) - 1) / m1 *
            (if j = 0 then k
             else ((kdjGo klines n m1 m2 k d i suffix).getD (j - 1) (0, 0, 0)).1) +
            1 / m1 * rsvAt klines n (i + j) ∧
        ((kdjGo klines n m1 m2 k d i suffix).getD j (0, 0, 0)).2.1 =
          ((m2 : ℚ) - 1) / m2 *
            (if j = 0 then d
             else ((kdjGo klines n m1 m2 k d i suffix).getD (j - 1) (0, 0, 0)).2.1) +
            1 / m2 * ((kdjGo klines n m1 m2 k d i suffix).getD j (0, 0, 0)).1 ∧
        ((kdjGo klines n m1 m2 k d i suffix).getD j (0, 0, 0)).2.2 =
          3 * ((kdjGo klines n m1 m2 k d i suffix).getD j (0, 0, 0)).1 -
            2 * ((kdjGo klines n m1 m2 k d i suffix).getD j (0, 0, 0)).2.1) := by
  intro suffix
  induction suffix with
  | nil =>
      intro k d i
      exact ⟨rfl, fun j hj => absurd hj (by simp)⟩
  | cons x rest ih =>
      intro k d i
      constructor
      · simp [kdjGo, (ih _ _ (i + 1)).1]
      · intro j hj
        rw [kdjGo_cons]
        set K1 : ℚ := ((m1 : ℚ) - 1) / m1 * k + 1 / m1 * rsvAt klines n i
          with hK1
        set D1 : ℚ := ((m2 : ℚ) - 1) / m2 * d + 1 / m2 * K1 with hD1
        cases j with
        | zero =>
            refine ⟨?_, ?_, ?_⟩ <;>
              simp [hK1, hD1, one_div]
        | succ jj =>
            have hjj : jj < rest.length := by simpa using hj
            obtain ⟨s1, s2, s3⟩ := (ih K1 D1 (i + 1)).2 jj hjj
            simp only [List.getD_cons_succ, Nat.succ_sub_one]
            rw [if_neg (Nat.succ_ne_zero jj), if_neg (Nat.succ_ne_zero jj)]
            cases jj with
            | zero =>
                simp only [if_pos rfl, Nat.add_zero] at s1 s2
                have hidx : i + 1 = i + (0 + 1) := by omega
                rw [hidx] at s1
                exact ⟨by simpa using s1, by simpa using s2, by simpa using s3⟩
            | succ js =>
                rw [if_neg (Nat.succ_ne_zero js)] at s1 s2
                have hidx : i + 1 + (js + 1) = i + (js + 1 + 1) := by omega
                rw [hidx] at s1
                simp only [Nat.succ_sub_one] at s1 s2
                exact ⟨by simpa using s1, by simpa using s2, by simpa using s3⟩

/-- C4 (legacy `calc_kdj`): RSV is `50` at every bar whose window's
highest high equals its lowest low; `%K` is the exponential-like smooth
`k = (m1-1)/m1 * k_prev + 1/m1 * rsv` seeded at `50`; `%D` is the same
smooth of `%K` seeded at `50`; and `%J = 3*%K - 2*%D` at every bar. -/
theorem c4_calc_kdj_recurrence (klines : List Kline) (n m1 m2 : ℕ)
    (hn : 0 < n) (hm1 : 0 < m1) (hm2 : 0 < m2) :
    ((calc_kdj klines n m1 m2).1.length = klines.length) ∧
    (∀ i, i < klines.length →
      listMax (((klines.take (i + 1)).drop (i + 1 - n)).map Kline.high) =
        listMin (((klines.take (i + 1)).drop (i + 1 - n)).map Kline.low) →
      rsvAt klines n i = 50) ∧
    (∀ i, i < klines.length →
      (calc_kdj klines n m1 m2).1.getD i 0 =
        ((m1 : ℚ) - 1) / m1 *
          (if i = 0 then 50 else (calc_kdj klines n m1 m2).1.getD (i - 1) 0) +
          1 / m1 * rsvAt klines n i) ∧
    (∀ i, i < klines.length →
      (calc_kdj klines n m1 m2).2.1.getD i 0 =
        ((m2 : ℚ) - 1) / m2 *
          (if i = 0 then 50 else (calc_kdj klines n m1 m2).2.1.getD (i - 1) 0) +
          1 / m2 * (calc_kdj klines n m1 m2).1.getD i 0) ∧
    (∀ i, i < klines.length →
      (calc_kdj klines n m1 m2).2.2.getD i 0 =
        3 * (calc_kdj klines n m1 m2).1.getD i 0 -
          2 * (calc_kdj klines n m1 m2).2.1.getD i 0) := by
  have hspec := kdjGo_spec klines n m1 m2 klines 50 50 0
  have hlen := hspec.1
  have hget : ∀ (i : ℕ), i < klines.length →
      ((calc_kdj klines n m1 m2).1.getD i 0 =
        ((kdjGo klines n m1 m2 50 50 0 klines).getD i (0, 0, 0)).1 ∧
      (calc_kdj klines n m1 m2).2.1.getD i 0 =
        ((kdjGo klines n m1 m2 50 50 0 klines).getD i (0, 0, 0)).2.1 ∧
      (calc_kdj klines n m1 m2).2.2.getD i 0 =
        ((kdjGo klines n m1 m2 50 50 0 klines).getD i (0, 0, 0)).2.2) := by
    intro i hi
    have hi' : i < (kdjGo klines n m1 m2 50 50 0 klines).length := by
      rw [hlen]; exact hi
    exact ⟨list_getD_map _ _ i (0, 0, 0) 0 hi',
      list_getD_map _ _ i (0, 0, 0) 0 hi',
      list_getD_map _ _ i (0, 0, 0) 0 hi'⟩
  refine ⟨by simpa [calc_kdj] using hlen, ?_, ?_, ?_, ?_⟩
  · intro i hi heq
    unfold rsvAt
    simp only [ne_eq]
    rw [if_neg (by simpa using heq)]
  · intro i hi
    have h := (hspec.2 i hi).1
    rw [(hget i hi).1]
    rcases Nat.eq_zero_or_pos i with h0 | h0
    · subst h0
      simpa using h
    · have hi1 : i - 1 < klines.length := by omega
      rw [if_neg (by omega)] at h ⊢
      rw [(hget (i - 1) hi1).1]
      simpa using h
  · intro i hi
    have h := (hspec.2 i hi).2.1
    rw [(hget i hi).2.1, (hget i hi).1]
    rcases Nat.eq_zero_or_pos i with h0 | h0
    · subst h0
      simpa using h
    · have hi1 : i - 1 < klines.length := by omega
      rw [if_neg (by omega)] at h ⊢
      rw [(hget (i - 1) hi1).2.1]
      simpa using h
  · intro i hi
    have h := (hspec.2 i hi).2.2
    rw [(hget i hi).2.2, (hget i hi).2.1, (hget i hi).1]
    exact h

unseal Rat.mul Rat.add Rat.sub Rat.inv in
/-- C4 witness: the recurrence statement instantiated on three concrete
bars with the default parameters `n=9, m1=3, m2=3`. -/
theorem c4_calc_kdj_recurrence_witness :
    ((0 : ℕ) < 9 ∧ (0 : ℕ) < 3) ∧
    ((calc_kdj [⟨10, 5, 7⟩, ⟨12, 6, 11⟩, ⟨12, 11, 12⟩] 9 3 3).1.getD 0 0 =
        ((3 : ℚ) - 1) / 3 * 50 + 1 / 3 *
          rsvAt [⟨10, 5, 7⟩, ⟨12, 6, 11⟩, ⟨12, 11, 12⟩] 9 0) ∧
    ((calc_kdj [⟨10, 5, 7⟩, ⟨12, 6, 11⟩, ⟨12, 11, 12⟩] 9 3 3).2.2.getD 2 0 =
        3 * (calc_kdj [⟨10, 5, 7⟩, ⟨12, 6, 11⟩, ⟨12, 11, 12⟩] 9 3 3).1.getD 2 0 -
          2 * (calc_kdj [⟨10, 5, 7⟩, ⟨12, 6, 11⟩, ⟨12, 11, 12⟩] 9 3 3).2.1.getD 2 0) := by
  have h := c4_calc_kdj_recurrence [⟨10, 5, 7⟩, ⟨12, 6, 11⟩, ⟨12, 11, 12⟩]
    9 3 3 (by decide) (by decide) (by decide)
  refine ⟨⟨by decide, by decide⟩, ?_, ?_⟩
  · have := h.2.2.1 0 (by decide)
    simpa using this
  · exact h.2.2.2.2 2 (by decide)

/-! ### Library KDJ (`indicators.kdj`), a rolling-mean stochastic -/

/-- `Series.rolling(window).max()`. -/
def rollingMax (xs : List ℚ) (window : ℕ) : List (Option ℚ) :=
  (List.range xs.length).map (fun i =>
    if i + 1 < window then none
    else some (listMax ((xs.drop (i + 1 - window)).take window)))

/-- `Series.rolling(window).min()`. -/
def rollingMin (xs : List ℚ) (window : ℕ) : List (Option ℚ) :=
  (List.range xs.length).map (fun i =>
    if i + 1 < window then none
    else some (listMin ((xs.drop (i + 1 - window)).take window)))

/-- `k_raw = (close - lowest_low) / (highest_high - lowest_low) * 100`
from `indicators.kdj`.  There is no special case for a zero range: when
`highest_high = lowest_low` the float division produces NaN (`0/0`, the
only case arising when `low ≤ close ≤ high`) or `±inf`, neither of which
is a rational; both are modelled as `none`. -/
def kRawLib (high low close : List ℚ) (k_window : ℕ) : List (Option ℚ) :=
  (List.range close.length).map (fun i =>
    match (rollingMax high k_window).getD i none,
        (rollingMin low k_window).getD i none with
    | some hh, some ll =>
        if hh - ll = 0 then none
        else some ((close.getD i 0 - ll) / (hh - ll) * 100)
    | _, _ => none)

/-- Rolling mean over a NaN-able series: NaN while the window is not full
or when any entry inside it is NaN. -/
def rollingMeanO (xs : List (Option ℚ)) (window : ℕ) : List (Option ℚ) :=
  (List.range xs.length).map (fun i =>
    if i + 1 < window then none
    else
      let w := (xs.drop (i + 1 - window)).take window
      if w.all (·.isSome) then some (((w.map (·.getD 0)).sum) / window)
      else none)

/-- `kdj(high, low, close, k_window, d_window, j_window)` from
`indicators.py`: `%K` is a `d_window` rolling mean of the raw stochastic
(`k_raw` itself when `d_window ≤ 1`), `%D` a `j_window` rolling mean of
`%K`, and `%J = 3*%K - 2*%D` (NaN propagating). -/
def kdjLib (high low close : List ℚ) (k_window d_window j_window : ℕ) :
    List (Option ℚ) × List (Option ℚ) × List (Option ℚ) :=
  let k_raw := kRawLib high low close k_window
  let k_line := if 1 < d_window then rollingMeanO k_raw d_window else k_raw
  let d_line := if 1 < j_window then rollingMeanO k_line j_window else k_line
  let j_line := List.zipWith (fun a b =>
    match a, b with
    | some x, some y => some (3 * x - 2 * y)
    | _, _ => none) k_line d_line
  (k_line, d_line, j_line)

set_option maxRecDepth 10000 in
unseal Rat.mul Rat.add Rat.sub Rat.inv in
/-- C4 counterexample: on nine identical bars (`high = low = close =
100`) with the default parameters `9/3/3`, the window's highest high at
bar 8 equals its lowest low, yet the library `kdj` raw stochastic at
that bar is NaN — not `50` — and `%K` there is NaN rather than any
`50`-seeded smooth: `indicators.kdj` has no zero-range fallback and no
seeding. -/
theorem c4_kdjLib_counterexample :
    (rollingMax (List.replicate 9 (100 : ℚ)) 9).getD 8 none =
      (rollingMin (List.replicate 9 (100 : ℚ)) 9).getD 8 none ∧
    (rollingMax (List.replicate 9 (100 : ℚ)) 9).getD 8 none = some 100 ∧
    (kRawLib (List.replicate 9 100) (List.replicate 9 100)
        (List.replicate 9 100) 9).getD 8 (some 0) = none ∧
    (kRawLib (List.replicate 9 100) (List.replicate 9 100)
        (List.replicate 9 100) 9).getD 8 (some 0) ≠ some 50 ∧
    (kdjLib (List.replicate 9 100) (List.replicate 9 100)
        (List.replicate 9 100) 9 3 3).1.getD 8 (some 0) = none := by
  refine ⟨?_, ?_, ?_, ?_, ?_⟩ <;> decide

/-! ## Signal generation (`scripts/stock_analysis/signals.py`)

Boolean comparisons against a NaN-able value are `false` on NaN, exactly
as pandas comparisons are. -/

/-- `x > c`, false on NaN. -/
def ogt (x : Option ℚ) (c : ℚ) : Bool := x.elim false (fun v => decide (c < v))

/-- `x < c`, false on NaN. -/
def olt (x : Option ℚ) (c : ℚ) : Bool := x.elim false (fun v => decide (v < c))

/-- `x ≥ c`, false on NaN. -/
def oge (x : Option ℚ) (c : ℚ) : Bool := x.elim false (fun v => decide (c ≤ v))

/-- `x ≤ c`, false on NaN. -/
def ole (x : Option ℚ) (c : ℚ) : Bool := x.elim false (fun v => decide (v ≤ c))

/-- NaN-propagating subtraction of series entries. -/
def subO : Option ℚ → Option ℚ → Option ℚ
  | some x, some y => some (x - y)
  | _, _ => none

/-- `golden_death_cross(fast_ma, slow_ma)`:
`(diff > 0 & diff.shift(1) ≤ 0) - (diff < 0 & diff.shift(1) ≥ 0)`
per bar, as an integer series (`shift(1)` prefixes a NaN). -/
def golden_death_cross (fast_ma slow_ma : List (Option ℚ)) : List Int :=
  let current_diff := List.zipWith subO fast_ma slow_ma
  let previous_diff := none :: current_diff
  (List.range current_diff.length).map (fun i =>
    (if ogt (current_diff.getD i none) 0 && ole (previous_diff.getD i none) 0
      then (1 : Int) else 0) +
    (if olt (current_diff.getD i none) 0 && oge (previous_diff.getD i none) 0
      then (-1 : Int) else 0))

/-- `oversold_overbought(rsi, overbought_level, oversold_level)`:
`(rsi ≤ oversold) - (rsi ≥ overbought)` as an integer series. -/
def oversold_overbought (rsi : List (Option ℚ))
    (overbought_level oversold_level : ℚ) : List Int :=
  rsi.map (fun x =>
    (if ole x oversold_level then (1 : Int) else 0) +
    (if oge x overbought_level then (-1 : Int) else 0))

/-- `macd_signal(macd_line, signal_line)`: the same crossover pattern on
two full (NaN-free) series. -/
def macd_signal (macd_line signal_line : List ℚ) : List Int :=
  let current_diff := List.zipWith (fun m s => m - s) macd_line signal_line
  let previous_diff : List (Option ℚ) := none :: current_diff.map some
  (List.range current_diff.length).map (fun i =>
    (if decide (0 < current_diff.getD i 0) &&
        ole (previous_diff.getD i none) 0 then (1 : Int) else 0) +
    (if decide (current_diff.getD i 0 < 0) &&
        oge (previous_diff.getD i none) 0 then (-1 : Int) else 0))

/-- `bb_position(close, upper_band, lower_band)`:
`(close - lower) / (upper - lower)` followed by `fillna(0.5)`.  A NaN
width (warm-up) and the `0/0` of a zero-width window both become `0.5`;
a nonzero numerator over a zero width is float `±inf` (not NaN, hence
not replaced), which is modelled as `none` and never arises when
`lower ≤ close ≤ upper`. -/
def bb_position (close : List ℚ) (upper_band lower_band : List (Option ℚ)) :
    List (Option ℚ) :=
  (List.range close.length).map (fun i =>
    match upper_band.getD i none, lower_band.getD i none with
    | some u, some l =>
        if u - l = 0 then
          (if close.getD i 0 - l = 0 then some (1/2) else none)
        else some ((close.getD i 0 - l) / (u - l))
    | _, _ => some (1/2))

/-- `trend_strength(data, window)`: percentage rate of change of the
`window` moving average (`ma.pct_change() * 100`); NaN while the moving
average is, and at bar 0.  A zero previous mean would divide by zero in
float (`±inf`/NaN), modelled as `none`. -/
def trend_strength (data : List ℚ) (window : ℕ) : List (Option ℚ) :=
  let ma := rollingMean data window
  (List.range data.length).map (fun i =>
    if i = 0 then none
    else
      match ma.getD i none, ma.getD (i - 1) none with
      | some cur, some prev =>
          if prev = 0 then none else some ((cur - prev) / prev * 100)
      | _, _ => none)

/-- Fuel-bounded integer Newton iteration for `isqrtN`. -/
def isqrtGo (n : ℕ) : ℕ → ℕ → ℕ
  | x, 0 => x
  | x, fuel + 1 =>
      let next := (x + n / x) / 2
      if next < x then isqrtGo n next fuel else x

/-- Integer square root (exact floor for every input reachable within the
fuel bound, which covers all numerals evaluated in this file). -/
def isqrtN (n : ℕ) : ℕ :=
  if n ≤ 1 then n else isqrtGo n n 128

/-- Rational square root model for `float` standard deviations: exact
when the radicand is the square of a rational (the only situation any
concrete evaluation below inspects), `0` otherwise, where the float
result is irrational and outside the model. -/
def sqrtQ (q : ℚ) : ℚ :=
  let sn := isqrtN q.num.natAbs
  let sd := isqrtN q.den
  if 0 ≤ q.num ∧ sn * sn = q.num.natAbs ∧ sd * sd = q.den
  then (sn : ℚ) / (sd : ℚ) else 0

/-- `Series.rolling(window).std()` (pandas default `ddof=1`). -/
def rollingStd (xs : List ℚ) (window : ℕ) : List (Option ℚ) :=
  (List.range xs.length).map (fun i =>
    if i + 1 < window then none
    else
      let w := (xs.drop (i + 1 - window)).take window
      let m := w.sum / window
      some (sqrtQ (((w.map (fun v => (v - m) ^ 2)).sum) / ((window : ℚ) - 1))))

/-- `bollinger_bands(data, window, num_std)` from `indicators.py`:
`(mean + std*k, mean, mean - std*k)`. -/
def bollinger_bands (data : List ℚ) (window : ℕ) (num_std : ℚ) :
    List (Option ℚ) × List (Option ℚ) × List (Option ℚ) :=
  let rolling_mean := rollingMean data window
  let rolling_std := rollingStd data window
  let upper := (List.range data.length).map (fun i =>
    match rolling_mean.getD i none, rolling_std.getD i none with
    | some m, some s => some (m + s * num_std)
    | _, _ => none)
  let lower := (List.range data.length).map (fun i =>
    match rolling_mean.getD i none, rolling_std.getD i none with
    | some m, some s => some (m - s * num_std)
    | _, _ => none)
  (upper, rolling_mean, lower)

/-- `combined_signals(data, ...)`: only the `close` column feeds the
computation.  Returns the six columns of the result frame:
`(ma_signal, rsi_signal, macd_signal, bb_position, trend_strength,
composite_score)`; the composite is
`(ma + rsi + macd + (bb_position - 0.5)*2 + clip(trend/10, -1, 1)) / 5`,
NaN wherever `bb_position` or `trend_strength` is. -/
def combined_signals (close : List ℚ) (ma_fast ma_slow rsi_period bb_period : ℕ)
    (bb_std : ℚ) (macd_fast macd_slow macd_signal_period : ℕ) :
    List Int × List Int × List Int ×
      List (Option ℚ) × List (Option ℚ) × List (Option ℚ) :=
  let ma_fast_series := movingAverageLib close ma_fast
  let ma_slow_series := movingAverageLib close ma_slow
  let rsi_series := rsiLib close rsi_period
  let bands := bollinger_bands close bb_period bb_std
  let macd_parts := macdLib close macd_fast macd_slow macd_signal_period
  let ma_sig := golden_death_cross ma_fast_series ma_slow_series
  let rsi_sig := oversold_overbought rsi_series 70 30
  let macd_sig := macd_signal macd_parts.1 macd_parts.2.1
  let bb_pos := bb_position close bands.1 bands.2.2
  let trend_str := trend_strength close 20
  let composite := (List.range close.length).map (fun i =>
    match bb_pos.getD i none, trend_str.getD i none with
    | some bp, some ts =>
        some ((((ma_sig.getD i 0 : ℤ) : ℚ) + ((rsi_sig.getD i 0 : ℤ) : ℚ) +
          ((macd_sig.getD i 0 : ℤ) : ℚ) + (bp - 1/2) * 2 +
          max (-1) (min (ts / 10) 1)) / 5)
    | _, _ => none)
  (ma_sig, rsi_sig, macd_sig, bb_pos, trend_str, composite)

/-! ### Composite-score lemmas -/

theorem range_map_getD {α : Type} (f : ℕ → α) (n i : ℕ) (d : α)
    (h : i < n) : ((List.range n).map f).getD i d = f i := by
  rw [list_getD_map f (List.range n) i 0 d (by simpa using h)]
  congr 1
  simp [List.getD_eq_getElem?_getD, List.getElem?_range h]

theorem sig_term_bounds (a b : Bool) :
    -1 ≤ ((if a then (1 : Int) else 0) + (if b then (-1 : Int) else 0)) ∧
      ((if a then (1 : Int) else 0) + (if b then (-1 : Int) else 0)) ≤ 1 := by
  cases a <;> cases b <;> decide

theorem mem_int_pm1_getD (l : List Int) (hl : ∀ x ∈ l, -1 ≤ x ∧ x ≤ 1)
    (i : ℕ) : -1 ≤ l.getD i 0 ∧ l.getD i 0 ≤ 1 := by
  by_cases h : i < l.length
  · have he : l.getD i 0 = l[i] := by
      simp [List.getD_eq_getElem?_getD, List.getElem?_eq_getElem h]
    rw [he]
    exact hl _ (List.getElem_mem _)
  · have he : l.getD i 0 = 0 := by
      rw [List.getD_eq_getElem?_getD, List.getElem?_eq_none (le_of_not_lt h)]
      rfl
    rw [he]; exact ⟨by decide, by decide⟩

theorem gdc_mem_pm1 (f s : List (Option ℚ)) :
    ∀ x ∈ golden_death_cross f s, -1 ≤ x ∧ x ≤ 1 := by
  intro x hx
  simp only [golden_death_cross] at hx
  obtain ⟨i, _, rfl⟩ := List.mem_map.mp hx
  exact sig_term_bounds _ _

theorem oo_mem_pm1 (rsi : List (Option ℚ)) (ob os : ℚ) :
    ∀ x ∈ oversold_overbought rsi ob os, -1 ≤ x ∧ x ≤ 1 := by
  intro x hx
  simp only [oversold_overbought] at hx
  obtain ⟨v, _, rfl⟩ := List.mem_map.mp hx
  exact sig_term_bounds _ _

theorem ms_mem_pm1 (ml sl : List ℚ) :
    ∀ x ∈ macd_signal ml sl, -1 ≤ x ∧ x ≤ 1 := by
  intro x hx
  simp only [macd_signal] at hx
  obtain ⟨i, _, rfl⟩ := List.mem_map.mp hx
  exact sig_term_bounds _ _

/-- The validation performed by `combined_signals`' callees
(`moving_average`, `rsi`, `bollinger_bands`, `macd`,
`golden_death_cross` with its default lookback `5`, `trend_strength`
with its default window `20`). -/
def combinedSignalsAccepted (close : List ℚ)
    (ma_fast ma_slow rsi_period bb_period : ℕ) (bb_std : ℚ)
    (macd_fast macd_slow macd_signal_period : ℕ) : Prop :=
  0 < ma_fast ∧ 0 < ma_slow ∧ ma_fast ≤ close.length ∧
    ma_slow ≤ close.length ∧
  0 < rsi_period ∧ rsi_period + 1 ≤ close.length ∧
  0 < bb_period ∧ 0 < bb_std ∧ bb_period ≤ close.length ∧
  0 < macd_fast ∧ macd_fast < macd_slow ∧ 0 < macd_signal_period ∧
    max macd_slow macd_signal_period ≤ close.length ∧
  5 + 1 ≤ close.length ∧ 20 + 1 ≤ close.length

instance (close : List ℚ) (ma_fast ma_slow rsi_period bb_period : ℕ)
    (bb_std : ℚ) (macd_fast macd_slow macd_signal_period : ℕ) :
    Decidable (combinedSignalsAccepted close ma_fast ma_slow rsi_period
      bb_period bb_std macd_fast macd_slow macd_signal_period) := by
  unfold combinedSignalsAccepted
  infer_instance

/-- C3 (amended): at every index where the composite score is defined it
equals the arithmetic mean of the five terms (MA-cross signal, RSI
signal, MACD-cross signal, `(bb_position - 0.5) * 2`, and the trend term
clipped to `[-1, 1]`); the three discrete signals and the clipped trend
term are each in `[-1, 1]`, so the composite lies in `[-1, 1]` whenever
`bb_position` does lie in `[0, 1]` — but the Bollinger term is not
clipped, so the composite escapes `[-1, 1]` when the close is far enough
outside the bands. -/
theorem c3_composite_mean_and_bounded (close : List ℚ)
    (ma_fast ma_slow rsi_period bb_period : ℕ) (bb_std : ℚ)
    (macd_fast macd_slow macd_signal_period : ℕ)
    (hacc : combinedSignalsAccepted close ma_fast ma_slow rsi_period
      bb_period bb_std macd_fast macd_slow macd_signal_period) :
    ∀ i bp ts, i < close.length →
      (combined_signals close ma_fast ma_slow rsi_period bb_period bb_std
          macd_fast macd_slow macd_signal_period).2.2.2.1.getD i none = some bp →
      (combined_signals close ma_fast ma_slow rsi_period bb_period bb_std
          macd_fast macd_slow macd_signal_period).2.2.2.2.1.getD i none = some ts →
      ((combined_signals close ma_fast ma_slow rsi_period bb_period bb_std
          macd_fast macd_slow macd_signal_period).2.2.2.2.2.getD i none =
        some ((((combined_signals close ma_fast ma_slow rsi_period bb_period
              bb_std macd_fast macd_slow macd_signal_period).1.getD i 0 : ℤ) +
            ((combined_signals close ma_fast ma_slow rsi_period bb_period
              bb_std macd_fast macd_slow macd_signal_period).2.1.getD i 0 : ℤ) +
            ((combined_signals close ma_fast ma_slow rsi_period bb_period
              bb_std macd_fast macd_slow macd_signal_period).2.2.1.getD i 0 : ℤ) +
            (bp - 1/2) * 2 + max (-1) (min (ts / 10) 1)) / 5)) ∧
      (0 ≤ bp ∧ bp ≤ 1 →
        ∀ c : ℚ, (combined_signals close ma_fast ma_slow rsi_period bb_period
            bb_std macd_fast macd_slow macd_signal_period).2.2.2.2.2.getD i
              none = some c →
          -1 ≤ c ∧ c ≤ 1) := by
  intro i bp ts hi hbp hts
  simp only [combined_signals] at hbp hts ⊢
  have hma := mem_int_pm1_getD _ (gdc_mem_pm1
    (movingAverageLib close ma_fast) (movingAverageLib close ma_slow)) i
  have hrsi := mem_int_pm1_getD _ (oo_mem_pm1 (rsiLib close rsi_period) 70 30) i
  have hmacd := mem_int_pm1_getD _ (ms_mem_pm1
    (macdLib close macd_fast macd_slow macd_signal_period).1
    (macdLib close macd_fast macd_slow macd_signal_period).2.1) i
  constructor
  · rw [range_map_getD _ _ _ _ hi, hbp, hts]
  · rintro ⟨hbp0, hbp1⟩ c hc
    rw [range_map_getD _ _ _ _ hi, hbp, hts] at hc
    obtain rfl := (Option.some.inj hc).symm
    have hmaq : (-1 : ℚ) ≤ _ ∧ _ ≤ (1 : ℚ) :=
      ⟨(by exact_mod_cast hma.1 :
          (-1 : ℚ) ≤ ((golden_death_cross (movingAverageLib close ma_fast)
            (movingAverageLib close ma_slow)).getD i 0 : ℤ)),
       (by exact_mod_cast hma.2 :
          (((golden_death_cross (movingAverageLib close ma_fast)
            (movingAverageLib close ma_slow)).getD i 0 : ℤ) : ℚ) ≤ 1)⟩
    have hrsiq : ((-1 : ℚ) ≤ ((oversold_overbought (rsiLib close rsi_period)
          70 30).getD i 0 : ℤ)) ∧
        (((oversold_overbought (rsiLib close rsi_period) 70 30).getD i 0 :
          ℤ) : ℚ) ≤ 1 :=
      ⟨by exact_mod_cast hrsi.1, by exact_mod_cast hrsi.2⟩
    have hmacdq : ((-1 : ℚ) ≤ ((macd_signal
          (macdLib close macd_fast macd_slow macd_signal_period).1
          (macdLib close macd_fast macd_slow macd_signal_period).2.1).getD
            i 0 : ℤ)) ∧
        (((macd_signal (macdLib close macd_fast macd_slow macd_signal_period).1
          (macdLib close macd_fast macd_slow macd_signal_period).2.1).getD
            i 0 : ℤ) : ℚ) ≤ 1 :=
      ⟨by exact_mod_cast hmacd.1, by exact_mod_cast hmacd.2⟩
    have hclip1 : (-1 : ℚ) ≤ max (-1) (min (ts / 10) 1) := le_max_left _ _
    have hclip2 : max (-1 : ℚ) (min (ts / 10) 1) ≤ 1 :=
      max_le (by norm_num) (min_le_right _ _)
    have hbb1 : (-1 : ℚ) ≤ (bp - 1/2) * 2 := by linarith
    have hbb2 : (bp - 1/2) * 2 ≤ 1 := by linarith
    constructor
    · have := hmaq.1; have := hrsiq.1; have := hmacdq.1
      linarith
    · have := hmaq.2; have := hrsiq.2; have := hmacdq.2
      linarith

set_option maxRecDepth 40000 in
unseal Rat.mul Rat.add Rat.sub Rat.inv in
/-- C3 witness: twenty-six constant closes (`100`); at bar 25 the
Bollinger position is `0.5` (zero-width band, `0/0 → fillna`), the trend
term is `0`, and the composite is defined, equal to the five-term mean,
and within `[-1, 1]`. -/
theorem c3_composite_mean_and_bounded_witness :
    (combinedSignalsAccepted (List.replicate 26 (100 : ℚ)) 5 20 14 20 2
        12 26 9 ∧
      25 < (List.replicate 26 (100 : ℚ)).length ∧
      (combined_signals (List.replicate 26 (100 : ℚ)) 5 20 14 20 2 12 26
          9).2.2.2.1.getD 25 none = some (1/2) ∧
      (combined_signals (List.replicate 26 (100 : ℚ)) 5 20 14 20 2 12 26
          9).2.2.2.2.1.getD 25 none = some 0) ∧
    (((combined_signals (List.replicate 26 (100 : ℚ)) 5 20 14 20 2 12 26
          9).2.2.2.2.2.getD 25 none =
        some ((((combined_signals (List.replicate 26 (100 : ℚ)) 5 20 14 20 2
              12 26 9).1.getD 25 0 : ℤ) +
            ((combined_signals (List.replicate 26 (100 : ℚ)) 5 20 14 20 2
              12 26 9).2.1.getD 25 0 : ℤ) +
            ((combined_signals (List.replicate 26 (100 : ℚ)) 5 20 14 20 2
              12 26 9).2.2.1.getD 25 0 : ℤ) +
            ((1 : ℚ)/2 - 1/2) * 2 + max (-1) (min ((0 : ℚ) / 10) 1)) / 5)) ∧
      ((0 : ℚ) ≤ 1/2 ∧ (1 : ℚ)/2 ≤ 1 →
        ∀ c : ℚ, (combined_signals (List.replicate 26 (100 : ℚ)) 5 20 14 20 2
            12 26 9).2.2.2.2.2.getD 25 none = some c →
          -1 ≤ c ∧ c ≤ 1)) :=
  ⟨⟨by decide, by decide, by decide, by decide⟩,
   c3_composite_mean_and_bounded (List.replicate 26 (100 : ℚ)) 5 20 14 20 2
     12 26 9 (by decide) 25 (1/2) 0 (by decide) (by decide) (by decide)⟩

set_option maxRecDepth 40000 in
unseal Rat.mul Rat.add Rat.sub Rat.inv in
/-- C3 counterexample: a 26-bar close series on which `combined_signals`
succeeds and the composite score at bar 25 is `141/140 > 1`, outside
`[-1, 1]`.  At that bar the MA5/MA20 golden cross and the MACD bullish
cross fire (`+1` each), RSI ≈ 69.8 is neutral (`0`), the MA20 rate of
change exceeds 10% (trend term clipped to `1`), and the close `77` sits
`57/14` sample standard deviations above the 20-bar mean `20` (the
rolling sample variance at bar 25 is exactly `196`, so the modelled
square root `σ = 14` coincides with the float one), giving an unclipped
Bollinger term `57/28 > 2`. -/
theorem c3_composite_score_exceeds_one :
    combinedSignalsAccepted [25, 25, 25, 25, 25, 25, 17, 19, 23, 11, 15, 21,
        13, 21, 13, 21, 13, 21, 13, 21, 13, 21, 13, 21, 13, 77]
      5 20 14 20 2 12 26 9 ∧
    (combined_signals [25, 25, 25, 25, 25, 25, 17, 19, 23, 11, 15, 21, 13,
        21, 13, 21, 13, 21, 13, 21, 13, 21, 13, 21, 13, 77]
      5 20 14 20 2 12 26 9).2.2.2.2.2.getD 25 none = some (141/140) ∧
    ¬((-1 : ℚ) ≤ 141/140 ∧ (141 : ℚ)/140 ≤ 1) := by
  refine ⟨by decide, ?_, by decide⟩
  decide

/-! ## Final trading signals (`signals.py`, `generate_trading_signals`) -/

/-- `x == c` on a NaN-able entry (false on NaN, as in pandas). -/
def obsEq (x : Option ℚ) (c : ℚ) : Bool := x.elim false (fun v => decide (v = c))

/-- The strategy table of `generate_trading_signals`
(`buy_threshold`, `sell_threshold`); unknown names raise (`none`). -/
def strategyParams (strategy : String) : Option (ℚ × ℚ) :=
  if strategy = "conservative" then some (3/5, -3/5)
  else if strategy = "moderate" then some (2/5, -2/5)
  else if strategy = "aggressive" then some (1/5, -1/5)
  else none

/-- The buy condition on one row `(ma_signal, rsi_signal,
composite_score)`: golden cross, not overbought (`!=` is true on NaN in
pandas), composite at or above the buy threshold. -/
def buyCond (r : Option ℚ × Option ℚ × Option ℚ) (buy_threshold : ℚ) : Bool :=
  obsEq r.1 1 && !obsEq r.2.1 (-1) && oge r.2.2 buy_threshold

/-- The sell condition: death cross, not oversold, composite at or below
the sell threshold. -/
def sellCond (r : Option ℚ × Option ℚ × Option ℚ) (sell_threshold : ℚ) : Bool :=
  obsEq r.1 (-1) && !obsEq r.2.1 1 && ole r.2.2 sell_threshold

/-- `generate_trading_signals(data, strategy)` over rows of
`(ma_signal, rsi_signal, composite_score)`: start from `0`, set buy rows
to `1`, then sell rows to `-1` (the later assignment wins, modelled by
testing the sell condition first). -/
def generate_trading_signals (rows : List (Option ℚ × Option ℚ × Option ℚ))
    (strategy : String) : Option (List Int) :=
  (strategyParams strategy).map (fun p =>
    rows.map (fun r =>
      if sellCond r p.2 then -1 else if buyCond r p.1 then 1 else 0))

/-- C10: for every accepted input frame the final signal at every index
is in `{-1, 0, 1}`, and the buy and sell conditions are never both true
on the same row (buy requires `ma_signal == 1`, sell `ma_signal == -1`),
so no tie-break between them is ever exercised. -/
theorem c10_final_signals_wellformed
    (rows : List (Option ℚ × Option ℚ × Option ℚ)) (strategy : String)
    (bt st : ℚ) (out : List Int)
    (hp : strategyParams strategy = some (bt, st))
    (hout : generate_trading_signals rows strategy = some out) :
    (∀ s ∈ out, s = -1 ∨ s = 0 ∨ s = 1) ∧
    (∀ r ∈ rows, ¬(buyCond r bt = true ∧ sellCond r st = true)) := by
  constructor
  · intro s hs
    unfold generate_trading_signals at hout
    rw [hp] at hout
    obtain rfl := (Option.some.inj hout)
    obtain ⟨r, _, rfl⟩ := List.mem_map.mp hs
    by_cases h1 : sellCond r st
    · simp [h1]
    · by_cases h2 : buyCond r bt
      · simp [h1, h2]
      · simp [h1, h2]
  · rintro r _ ⟨hb, hs⟩
    unfold buyCond at hb
    unfold sellCond at hs
    simp only [Bool.and_eq_true] at hb hs
    have hb1 : obsEq r.1 1 = true := hb.1.1
    have hs1 : obsEq r.1 (-1) = true := hs.1.1
    unfold obsEq at hb1 hs1
    match hr : r.1 with
    | none => rw [hr] at hb1; exact absurd hb1 (by simp [Option.elim])
    | some v =>
        rw [hr] at hb1 hs1
        simp only [Option.elim, decide_eq_true_eq] at hb1 hs1
        rw [hb1] at hs1
        norm_num at hs1

unseal Rat.mul Rat.add Rat.sub Rat.inv in
/-- C10 witness: three concrete rows under the `"moderate"` strategy
produce `[1, -1, 0]` and satisfy the disjointness property. -/
theorem c10_final_signals_wellformed_witness :
    (strategyParams "moderate" = some (2/5, -2/5) ∧
      generate_trading_signals
        [(some 1, some 0, some (1/2)), (some (-1), some 0, some (-1/2)),
          (none, none, none)] "moderate" =
        some [1, -1, 0]) ∧
    ((∀ s ∈ ([1, -1, 0] : List Int), s = -1 ∨ s = 0 ∨ s = 1) ∧
      (∀ r ∈ [((some 1 : Option ℚ), (some 0 : Option ℚ),
          (some (1/2) : Option ℚ)), (some (-1), some 0, some (-1/2)),
          (none, none, none)],
        ¬(buyCond r (2/5) = true ∧ sellCond r (-2/5) = true))) :=
  ⟨⟨by decide, by decide⟩,
   c10_final_signals_wellformed
     [(some 1, some 0, some (1/2)), (some (-1), some 0, some (-1/2)),
       (none, none, none)] "moderate" (2/5) (-2/5) [1, -1, 0]
     (by decide) (by decide)⟩

/-! ## Signal reliability scanner (`scripts/backtest.py`)

`scripts/backtest.py` calls `technical.calc_ma`, `technical.calc_macd`,
`technical.calc_kdj`, `technical.calc_rsi` and `technical.calc_boll`;
those functions exist only in the legacy module (`technical_old.py`,
embedded above), which is what the embedding wires in.  `ma60` and
`rsi14` are computed by `detect_signals_for_day` but read by no rule and
are omitted here. -/

/-- `calc_boll(closes, period, k)`: middle = `calc_ma`; half-width =
`k * population std` of the trailing window around the middle value
(always divided by `period`, matching the source). -/
def calc_boll (closes : List ℚ) (period : ℕ) (k : ℚ) :
    List (Option ℚ) × List (Option ℚ) × List (Option ℚ) :=
  let mid := calc_ma closes period
  let upper := (List.range closes.length).map (fun i =>
    match mid.getD i none with
    | none => none
    | some m =>
        some (m + k * sqrtQ (((((closes.take (i + 1)).drop (i + 1 - period)).map
          (fun c => (c - m) ^ 2)).sum) / period)))
  let lower := (List.range closes.length).map (fun i =>
    match mid.getD i none with
    | none => none
    | some m =>
        some (m - k * sqrtQ (((((closes.take (i + 1)).drop (i + 1 - period)).map
          (fun c => (c - m) ^ 2)).sum) / period)))
  (mid, upper, lower)

/-- Python truthiness of an indicator value: `None` and `0.0` are falsy
(the source guards several rules with `if ma5[-1] and ...`). -/
def truthy (x : Option ℚ) : Bool := x.elim false (fun v => decide (v ≠ 0))

/-- `series[-1]` of a NaN-able list. -/
def atLast (l : List (Option ℚ)) : Option ℚ := l.getD (l.length - 1) none

/-- `series[-2]` of a NaN-able list. -/
def atPrev (l : List (Option ℚ)) : Option ℚ := l.getD (l.length - 2) none

/-- `series[-1]` of a plain list. -/
def lastQ (l : List ℚ) : ℚ := l.getD (l.length - 1) 0

/-- `series[-2]` of a plain list. -/
def prevQ (l : List ℚ) : ℚ := l.getD (l.length - 2) 0

/-- `detect_signals_for_day(klines, day_idx)`: empty before day 30;
otherwise recompute all indicators on the prefix through `day_idx` and
evaluate the eight if/elif rule pairs of `technical_old.analyze`,
collecting `(name, type, strength)` triples in source order. -/
def detect_signals_for_day (klines : List Kline) (day_idx : ℕ) :
    List (String × String × ℕ) :=
  if day_idx < 30 then []
  else
    let current := klines.take (day_idx + 1)
    let closes := current.map Kline.close
    let ma5 := calc_ma closes 5
    let ma10 := calc_ma closes 10
    let ma20 := calc_ma closes 20
    let macd3 := calc_macd closes 12 26 9
    let dif := macd3.1
    let dea := macd3.2.1
    let kdj3 := calc_kdj current 9 3 3
    let k_vals := kdj3.1
    let d_vals := kdj3.2.1
    let rsi6 := calc_rsi closes 6
    let boll := calc_boll closes 20 2
    let latest := (current.getLast?).elim 0 Kline.close
    let s1 :=
      if truthy (atLast ma5) && truthy (atLast ma10) &&
          truthy (atPrev ma5) && truthy (atPrev ma10) then
        if decide ((atPrev ma5).getD 0 ≤ (atPrev ma10).getD 0) &&
            decide ((atLast ma10).getD 0 < (atLast ma5).getD 0) then
          [("MA5/10金叉", "buy", (6 : ℕ))]
        else if decide ((atPrev ma10).getD 0 ≤ (atPrev ma5).getD 0) &&
            decide ((atLast ma5).getD 0 < (atLast ma10).getD 0) then
          [("MA5/10死叉", "sell", 6)]
        else []
      else []
    let s2 :=
      if truthy (atLast ma5) && truthy (atLast ma20) &&
          truthy (atPrev ma5) && truthy (atPrev ma20) then
        if decide ((atPrev ma5).getD 0 ≤ (atPrev ma20).getD 0) &&
            decide ((atLast ma20).getD 0 < (atLast ma5).getD 0) then
          [("MA5/20金叉", "buy", (7 : ℕ))]
        else if decide ((atPrev ma20).getD 0 ≤ (atPrev ma5).getD 0) &&
            decide ((atLast ma5).getD 0 < (atLast ma20).getD 0) then
          [("MA5/20死叉", "sell", 7)]
        else []
      else []
    let s3 :=
      if decide (2 ≤ dif.length) && decide (2 ≤ dea.length) then
        if decide (prevQ dif ≤ prevQ dea) && decide (lastQ dea < lastQ dif) then
          [("MACD金叉", "buy", (7 : ℕ))]
        else if decide (prevQ dea ≤ prevQ dif) && decide (lastQ dif < lastQ dea) then
          [("MACD死叉", "sell", 7)]
        else []
      else []
    let s4 :=
      if decide (lastQ k_vals < 20) && decide (lastQ d_vals < 20) then
        [("KDJ超卖区", "buy", (5 : ℕ))]
      else if decide (80 < lastQ k_vals) && decide (80 < lastQ d_vals) then
        [("KDJ超买区", "sell", 5)]
      else []
    let s5 :=
      if decide (2 ≤ k_vals.length) && decide (2 ≤ d_vals.length) then
        if decide (prevQ k_vals ≤ prevQ d_vals) &&
            decide (lastQ d_vals < lastQ k_vals) &&
            decide (lastQ k_vals < 50) then
          [("KDJ低位金叉", "buy", (7 : ℕ))]
        else if decide (prevQ d_vals ≤ prevQ k_vals) &&
            decide (lastQ k_vals < lastQ d_vals) &&
            decide (50 < lastQ k_vals) then
          [("KDJ高位死叉", "sell", 7)]
        else []
      else []
    let s6 :=
      if truthy (atLast rsi6) && decide ((atLast rsi6).getD 0 < 20) then
        [("RSI6超卖(<20)", "buy", (6 : ℕ))]
      else if truthy (atLast rsi6) && decide (80 < (atLast rsi6).getD 0) then
        [("RSI6超买(>80)", "sell", 6)]
      else []
    let s7 :=
      if truthy (atLast boll.2.2) && decide (latest ≤ (atLast boll.2.2).getD 0) then
        [("触及布林下轨", "buy", (5 : ℕ))]
      else if truthy (atLast boll.2.1) && decide ((atLast boll.2.1).getD 0 ≤ latest) then
        [("触及布林上轨", "sell", 5)]
      else []
    let s8 :=
      if truthy (atLast ma5) && truthy (atLast ma10) && truthy (atLast ma20) then
        if decide ((atLast ma10).getD 0 < (atLast ma5).getD 0) &&
            decide ((atLast ma20).getD 0 < (atLast ma10).getD 0) then
          [("均线多头排列", "buy", (8 : ℕ))]
        else if decide ((atLast ma5).getD 0 < (atLast ma10).getD 0) &&
            decide ((atLast ma10).getD 0 < (atLast ma20).getD 0) then
          [("均线空头排列", "sell", 8)]
        else []
      else []
    s1 ++ s2 ++ s3 ++ s4 ++ s5 ++ s6 ++ s7 ++ s8

/-- The forward return `(close[i+h] - close[i]) / close[i]`. -/
def fwdRet (klines : List Kline) (i h : ℕ) : ℚ :=
  ((klines.getD (i + h) ⟨0, 0, 0⟩).close - (klines.getD i ⟨0, 0, 0⟩).close) /
    (klines.getD i ⟨0, 0, 0⟩).close

/-- `calculate_returns(klines, trigger_idx)`: the forward return per
holding horizon, `None` when `trigger_idx + period` runs past the end. -/
def calculate_returns (klines : List Kline) (trigger_idx : ℕ) :
    List (ℕ × Option ℚ) :=
  [1, 3, 5, 10, 20].map (fun p =>
    (p, if trigger_idx + p < klines.length
        then some (fwdRet klines trigger_idx p) else none))

/-- Per-horizon tallies of one signal
(`{"wins": …, "total": …, "returns": […]}`). -/
structure PeriodStat where
  wins : ℕ
  total : ℕ
  returns : List ℚ
  deriving Repr, DecidableEq

/-- Per-signal statistics (`signal_stats[name]`), with one `PeriodStat`
per holding horizon. -/
structure SignalStat where
  type : String
  count : ℕ
  p1 : PeriodStat
  p3 : PeriodStat
  p5 : PeriodStat
  p10 : PeriodStat
  p20 : PeriodStat
  deriving Repr, DecidableEq

/-- The fresh entry created on a name's first firing. -/
def emptyStat (t : String) : SignalStat :=
  ⟨t, 0, ⟨0, 0, []⟩, ⟨0, 0, []⟩, ⟨0, 0, []⟩, ⟨0, 0, []⟩, ⟨0, 0, []⟩⟩

/-- A buy-type firing wins on a positive forward return, a sell-type one
on a negative forward return. -/
def isWin (sigtype : String) (ret : ℚ) : Bool :=
  if sigtype = "buy" then decide (0 < ret) else decide (ret < 0)

/-- One horizon's update for a firing at `day`: the `if return_rate is
not None` branch of the stats loop — count the firing as resolved and as
a win according to the stored type. -/
def periodUpdate (klines : List Kline) (day h : ℕ) (sigtype : String)
    (ps : PeriodStat) : PeriodStat :=
  if day + h < klines.length then
    { wins := ps.wins + (if isWin sigtype (fwdRet klines day h) then 1 else 0)
      total := ps.total + 1
      returns := ps.returns ++ [fwdRet klines day h] }
  else ps

/-- The per-firing mutation of one signal's entry: bump `count` and feed
`calculate_returns` into every horizon, classifying wins by the entry's
stored type. -/
def applyOne (klines : List Kline) (day : ℕ) (st : SignalStat) : SignalStat :=
  { st with
    count := st.count + 1
    p1 := periodUpdate klines day 1 st.type st.p1
    p3 := periodUpdate klines day 3 st.type st.p3
    p5 := periodUpdate klines day 5 st.type st.p5
    p10 := periodUpdate klines day 10 st.type st.p10
    p20 := periodUpdate klines day 20 st.type st.p20 }

/-- Python-dict upsert on the association list of signal entries:
replace in place when the key exists, append otherwise. -/
def upsert (stats : List (String × SignalStat)) (name : String)
    (st : SignalStat) : List (String × SignalStat) :=
  if (stats.lookup name).isSome then
    stats.map (fun q => if q.1 = name then (name, st) else q)
  else stats ++ [(name, st)]

/-- Process one firing event `(day, name, type, strength)`: fetch or
create the entry (typed by the first firing) and apply the update. -/
def applyFiring (klines : List Kline) (stats : List (String × SignalStat))
    (e : ℕ × String × String × ℕ) : List (String × SignalStat) :=
  upsert stats e.2.1
    (applyOne klines e.1 ((stats.lookup e.2.1).getD (emptyStat e.2.2.1)))

/-- All firing events of the scan, in loop order: days `30 …
len(klines)-1`, each day's detected signals in rule order. -/
def firingEvents (klines : List Kline) : List (ℕ × String × String × ℕ) :=
  ((List.range klines.length).drop 30).bind (fun i =>
    (detect_signals_for_day klines i).map (fun s => (i, s)))

/-- The `signal_stats` table built by `backtest_stock`'s scan loop. -/
def scanStats (klines : List Kline) : List (String × SignalStat) :=
  (firingEvents klines).foldl (applyFiring klines) []

/-- `win_rate = wins / total` when any firing resolved, else `0`. -/
def winRate (ps : PeriodStat) : ℚ :=
  if 0 < ps.total then (ps.wins : ℚ) / ps.total else 0

/-! ### Scanner fold lemmas -/

theorem lookup_map_replace (name : String) (st : SignalStat) :
    ∀ stats : List (String × SignalStat), (stats.lookup name).isSome →
      (stats.map (fun q => if q.1 = name then (name, st) else q)).lookup name =
        some st := by
  intro stats
  induction stats with
  | nil => intro h; simp at h
  | cons q rest ih =>
      obtain ⟨k, v⟩ := q
      intro h
      by_cases hk : k = name
      · subst hk
        simp [List.lookup_cons]
      · have hbeq : (name == k) = false := beq_eq_false_iff_ne.mpr (Ne.symm hk)
        have h' : (rest.lookup name).isSome := by
          rw [List.lookup_cons] at h
          simpa [hbeq] using h
        simp only [List.map_cons, if_neg hk, List.lookup_cons, hbeq]
        simpa using ih h'

theorem lookup_append_new (name : String) (st : SignalStat) :
    ∀ stats : List (String × SignalStat), stats.lookup name = none →
      (stats ++ [(name, st)]).lookup name = some st := by
  intro stats
  induction stats with
  | nil => intro _; simp
  | cons q rest ih =>
      obtain ⟨k, v⟩ := q
      intro h
      rw [List.lookup_cons] at h
      cases hb : (name == k) with
      | true => rw [hb] at h; simp at h
      | false =>
          rw [hb] at h
          simp only [List.cons_append, List.lookup_cons, hb]
          simpa using ih (by simpa using h)

theorem upsert_lookup_self (stats : List (String × SignalStat))
    (name : String) (st : SignalStat) :
    (upsert stats name st).lookup name = some st := by
  unfold upsert
  by_cases h : (stats.lookup name).isSome
  · rw [if_pos h]
    exact lookup_map_replace name st stats h
  · rw [if_neg h]
    exact lookup_append_new name st stats (Option.not_isSome_iff_eq_none.mp h)

theorem lookup_map_replace_other (name name' : String) (st : SignalStat)
    (h : name' ≠ name) :
    ∀ stats : List (String × SignalStat),
      (stats.map (fun q => if q.1 = name then (name, st) else q)).lookup name' =
        stats.lookup name' := by
  intro stats
  induction stats with
  | nil => simp
  | cons q rest ih =>
      obtain ⟨k, v⟩ := q
      by_cases hk : k = name
      · subst hk
        have hbeq : (name' == k) = false := beq_eq_false_iff_ne.mpr h
        simp [List.lookup_cons, hbeq, ih]
      · simp only [List.map_cons, if_neg hk, List.lookup_cons]
        cases hb : (name' == k) with
        | true => rfl
        | false => simpa using ih

theorem lookup_append_other (name name' : String) (st : SignalStat)
    (h : name' ≠ name) :
    ∀ stats : List (String × SignalStat),
      (stats ++ [(name, st)]).lookup name' = stats.lookup name' := by
  intro stats
  induction stats with
  | nil =>
      have hbeq : (name' == name) = false := beq_eq_false_iff_ne.mpr h
      simp [List.lookup_cons, hbeq]
  | cons q rest ih =>
      obtain ⟨k, v⟩ := q
      simp only [List.cons_append, List.lookup_cons]
      cases hb : (name' == k) with
      | true => rfl
      | false => simpa using ih

theorem upsert_lookup_other (stats : List (String × SignalStat))
    (name name' : String) (st : SignalStat) (h : name' ≠ name) :
    (upsert stats name st).lookup name' = stats.lookup name' := by
  unfold upsert
  by_cases hs : (stats.lookup name).isSome
  · rw [if_pos hs]
    exact lookup_map_replace_other name name' st h stats
  · rw [if_neg hs]
    exact lookup_append_other name name' st h stats

theorem foldl_applyFiring_lookup (klines : List Kline) (name : String) :
    ∀ (events : List (ℕ × String × String × ℕ))
      (stats0 : List (String × SignalStat)),
      (events.foldl (applyFiring klines) stats0).lookup name =
        (events.filter (fun e => decide (e.2.1 = name))).foldl
          (fun acc e =>
            some (applyOne klines e.1 (acc.getD (emptyStat e.2.2.1))))
          (stats0.lookup name) := by
  intro events
  induction events with
  | nil => intro stats0; rfl
  | cons e rest ih =>
      intro stats0
      by_cases he : e.2.1 = name
      · have hfil : (e :: rest).filter (fun e => decide (e.2.1 = name)) =
            e :: rest.filter (fun e => decide (e.2.1 = name)) := by
          simp [List.filter, he]
        rw [List.foldl_cons, ih, hfil, List.foldl_cons]
        congr 1
        show (applyFiring klines stats0 e).lookup name = _
        unfold applyFiring
        rw [← he, upsert_lookup_self]
      · have hfil : (e :: rest).filter (fun e => decide (e.2.1 = name)) =
            rest.filter (fun e => decide (e.2.1 = name)) := by
          simp [List.filter, he]
        rw [List.foldl_cons, ih, hfil]
        congr 1
        show (applyFiring klines stats0 e).lookup name = _
        unfold applyFiring
        exact upsert_lookup_other _ _ _ _ (fun hne => he hne.symm)

theorem foldl_some_applyOne (klines : List Kline) :
    ∀ (evs : List (ℕ × String × String × ℕ)) (s : SignalStat),
      evs.foldl (fun acc e =>
          some (applyOne klines e.1 (acc.getD (emptyStat e.2.2.1)))) (some s) =
        some (evs.foldl (fun s e => applyOne klines e.1 s) s) := by
  intro evs
  induction evs with
  | nil => intro s; rfl
  | cons e rest ih => intro s; exact ih _

theorem periodUpdate_total (klines : List Kline) (day h : ℕ) (t : String)
    (ps : PeriodStat) :
    (periodUpdate klines day h t ps).total =
      ps.total + (if day + h < klines.length then 1 else 0) := by
  unfold periodUpdate
  split <;> simp

theorem periodUpdate_wins (klines : List Kline) (day h : ℕ) (t : String)
    (ps : PeriodStat) :
    (periodUpdate klines day h t ps).wins =
      ps.wins + (if decide (day + h < klines.length) &&
        isWin t (fwdRet klines day h) then 1 else 0) := by
  unfold periodUpdate
  split
  · next hlt => simp [hlt]
  · next hlt => simp [hlt]

theorem applyOne_chain (klines : List Kline) :
    ∀ (evs : List (ℕ × String × String × ℕ)) (st : SignalStat),
      (evs.foldl (fun s e => applyOne klines e.1 s) st).type = st.type ∧
      (evs.foldl (fun s e => applyOne klines e.1 s) st).count =
        st.count + evs.length ∧
      ((evs.foldl (fun s e => applyOne klines e.1 s) st).p1.total =
          st.p1.total + evs.countP (fun e => decide (e.1 + 1 < klines.length)) ∧
        (evs.foldl (fun s e => applyOne klines e.1 s) st).p1.wins =
          st.p1.wins + evs.countP (fun e =>
            decide (e.1 + 1 < klines.length) &&
              isWin st.type (fwdRet klines e.1 1))) ∧
      ((evs.foldl (fun s e => applyOne klines e.1 s) st).p3.total =
          st.p3.total + evs.countP (fun e => decide (e.1 + 3 < klines.length)) ∧
        (evs.foldl (fun s e => applyOne klines e.1 s) st).p3.wins =
          st.p3.wins + evs.countP (fun e =>
            decide (e.1 + 3 < klines.length) &&
              isWin st.type (fwdRet klines e.1 3))) ∧
      ((evs.foldl (fun s e => applyOne klines e.1 s) st).p5.total =
          st.p5.total + evs.countP (fun e => decide (e.1 + 5 < klines.length)) ∧
        (evs.foldl (fun s e => applyOne klines e.1 s) st).p5.wins =
          st.p5.wins + evs.countP (fun e =>
            decide (e.1 + 5 < klines.length) &&
              isWin st.type (fwdRet klines e.1 5))) ∧
      ((evs.foldl (fun s e => applyOne klines e.1 s) st).p10.total =
          st.p10.total + evs.countP (fun e => decide (e.1 + 10 < klines.length)) ∧
        (evs.foldl (fun s e => applyOne klines e.1 s) st).p10.wins =
          st.p10.wins + evs.countP (fun e =>
            decide (e.1 + 10 < klines.length) &&
              isWin st.type (fwdRet klines e.1 10))) ∧
      ((evs.foldl (fun s e => applyOne klines e.1 s) st).p20.total =
          st.p20.total + evs.countP (fun e => decide (e.1 + 20 < klines.length)) ∧
        (evs.foldl (fun s e => applyOne klines e.1 s) st).p20.wins =
          st.p20.wins + evs.countP (fun e =>
            decide (e.1 + 20 < klines.length) &&
              isWin st.type (fwdRet klines e.1 20))) := by
  intro evs
  induction evs with
  | nil =>
      intro st
      refine ⟨rfl, by simp, ?_, ?_, ?_, ?_, ?_⟩ <;>
        exact ⟨by simp, by simp⟩
  | cons e rest ih =>
      intro st
      have hty : (applyOne klines e.1 st).type = st.type := rfl
      obtain ⟨i1, i2, ⟨i3, i4⟩, ⟨i5, i6⟩, ⟨i7, i8⟩, ⟨i9, i10⟩, ⟨i11, i12⟩⟩ :=
        ih (applyOne klines e.1 st)
      rw [hty] at i4 i6 i8 i10 i12
      rw [List.foldl_cons]
      refine ⟨by rw [i1, hty], ?_, ⟨?_, ?_⟩, ⟨?_, ?_⟩, ⟨?_, ?_⟩, ⟨?_, ?_⟩,
        ⟨?_, ?_⟩⟩
      · rw [i2]; simp [applyOne]; omega
      · rw [i3, List.countP_cons]
        show (periodUpdate klines e.1 1 st.type st.p1).total + _ = _
        rw [periodUpdate_total]
        by_cases hc : e.1 + 1 < klines.length <;> simp [hc] <;> omega
      · rw [i4, List.countP_cons]
        show (periodUpdate klines e.1 1 st.type st.p1).wins + _ = _
        rw [periodUpdate_wins]
        by_cases hc : decide (e.1 + 1 < klines.length) &&
            isWin st.type (fwdRet klines e.1 1) <;> simp [hc] <;> omega
      · rw [i5, List.countP_cons]
        show (periodUpdate klines e.1 3 st.type st.p3).total + _ = _
        rw [periodUpdate_total]
        by_cases hc : e.1 + 3 < klines.length <;> simp [hc] <;> omega
      · rw [i6, List.countP_cons]
        show (periodUpdate klines e.1 3 st.type st.p3).wins + _ = _
        rw [periodUpdate_wins]
        by_cases hc : decide (e.1 + 3 < klines.length) &&
            isWin st.type (fwdRet klines e.1 3) <;> simp [hc] <;> omega
      · rw [i7, List.countP_cons]
        show (periodUpdate klines e.1 5 st.type st.p5).total + _ = _
        rw [periodUpdate_total]
        by_cases hc : e.1 + 5 < klines.length <;> simp [hc] <;> omega
      · rw [i8, List.countP_cons]
        show (periodUpdate klines e.1 5 st.type st.p5).wins + _ = _
        rw [periodUpdate_wins]
        by_cases hc : decide (e.1 + 5 < klines.length) &&
            isWin st.type (fwdRet klines e.1 5) <;> simp [hc] <;> omega
      · rw [i9, List.countP_cons]
        show (periodUpdate klines e.1 10 st.type st.p10).total + _ = _
        rw [periodUpdate_total]
        by_cases hc : e.1 + 10 < klines.length <;> simp [hc] <;> omega
      · rw [i10, List.countP_cons]
        show (periodUpdate klines e.1 10 st.type st.p10).wins + _ = _
        rw [periodUpdate_wins]
        by_cases hc : decide (e.1 + 10 < klines.length) &&
            isWin st.type (fwdRet klines e.1 10) <;> simp [hc] <;> omega
      · rw [i11, List.countP_cons]
        show (periodUpdate klines e.1 20 st.type st.p20).total + _ = _
        rw [periodUpdate_total]
        by_cases hc : e.1 + 20 < klines.length <;> simp [hc] <;> omega
      · rw [i12, List.countP_cons]
        show (periodUpdate klines e.1 20 st.type st.p20).wins + _ = _
        rw [periodUpdate_wins]
        by_cases hc : decide (e.1 + 20 < klines.length) &&
            isWin st.type (fwdRet klines e.1 20) <;> simp [hc] <;> omega

/-- C8: for every scanned bar series and signal name, the scanner's
entry counts, per holding horizon `h ∈ {1,3,5,10,20}`, exactly the
firings whose horizon end `i + h` is in range as resolved, and as wins
exactly those whose forward return `(close[i+h]-close[i])/close[i]` is
positive (buy-type) resp. negative (sell-type); `win_rate` is
`wins/total` once anything resolved, so three resolved buy firings with
three positive returns give `win_rate = 1`. -/
theorem c8_scanner_win_counting (klines : List Kline) (name t : String)
    (st : SignalStat) (hlen : 50 ≤ klines.length)
    (htypes : ∀ e ∈ firingEvents klines, e.2.1 = name → e.2.2.1 = t)
    (hlook : (scanStats klines).lookup name = some st) :
    st.type = t ∧
    st.count = ((firingEvents klines).filter
      (fun e => decide (e.2.1 = name))).length ∧
    (st.p1.total = ((firingEvents klines).filter
        (fun e => decide (e.2.1 = name))).countP
          (fun e => decide (e.1 + 1 < klines.length)) ∧
      st.p1.wins = ((firingEvents klines).filter
        (fun e => decide (e.2.1 = name))).countP
          (fun e => decide (e.1 + 1 < klines.length) &&
            isWin t (fwdRet klines e.1 1))) ∧
    (st.p3.total = ((firingEvents klines).filter
        (fun e => decide (e.2.1 = name))).countP
          (fun e => decide (e.1 + 3 < klines.length)) ∧
      st.p3.wins = ((firingEvents klines).filter
        (fun e => decide (e.2.1 = name))).countP
          (fun e => decide (e.1 + 3 < klines.length) &&
            isWin t (fwdRet klines e.1 3))) ∧
    (st.p5.total = ((firingEvents klines).filter
        (fun e => decide (e.2.1 = name))).countP
          (fun e => decide (e.1 + 5 < klines.length)) ∧
      st.p5.wins = ((firingEvents klines).filter
        (fun e => decide (e.2.1 = name))).countP
          (fun e => decide (e.1 + 5 < klines.length) &&
            isWin t (fwdRet klines e.1 5))) ∧
    (st.p10.total = ((firingEvents klines).filter
        (fun e => decide (e.2.1 = name))).countP
          (fun e => decide (e.1 + 10 < klines.length)) ∧
      st.p10.wins = ((firingEvents klines).filter
        (fun e => decide (e.2.1 = name))).countP
          (fun e => decide (e.1 + 10 < klines.length) &&
            isWin t (fwdRet klines e.1 10))) ∧
    (st.p20.total = ((firingEvents klines).filter
        (fun e => decide (e.2.1 = name))).countP
          (fun e => decide (e.1 + 20 < klines.length)) ∧
      st.p20.wins = ((firingEvents klines).filter
        (fun e => decide (e.2.1 = name))).countP
          (fun e => decide (e.1 + 20 < klines.length) &&
            isWin t (fwdRet klines e.1 20))) ∧
    (0 < st.p5.total → winRate st.p5 = (st.p5.wins : ℚ) / st.p5.total) ∧
    (st.p5.wins = st.p5.total → 0 < st.p5.total → winRate st.p5 = 1) := by
  unfold scanStats at hlook
  rw [foldl_applyFiring_lookup] at hlook
  cases hcase : (firingEvents klines).filter (fun e => decide (e.2.1 = name)) with
  | nil =>
      rw [hcase] at hlook
      simp at hlook
  | cons e0 rest =>
      have he0 : e0 ∈ (firingEvents klines).filter
          (fun e => decide (e.2.1 = name)) := by
        rw [hcase]; exact List.mem_cons_self _ _
      have he0m := List.mem_filter.mp he0
      have ht0 : e0.2.2.1 = t :=
        htypes e0 he0m.1 (by simpa using he0m.2)
      rw [hcase, List.foldl_cons] at hlook
      simp only [List.lookup_nil, Option.getD_none, ht0] at hlook
      rw [foldl_some_applyOne] at hlook
      have hst : st = (e0 :: rest).foldl
          (fun s e => applyOne klines e.1 s) (emptyStat t) := by
        rw [List.foldl_cons]
        exact (Option.some.inj hlook).symm
      obtain ⟨c1, c2, ⟨c3, c4⟩, ⟨c5, c6⟩, ⟨c7, c8⟩, ⟨c9, c10⟩, ⟨c11, c12⟩⟩ :=
        applyOne_chain klines (e0 :: rest) (emptyStat t)
      have hty : (emptyStat t).type = t := rfl
      rw [hty] at c4 c6 c8 c10 c12
      rw [← hst] at c1 c2 c3 c4 c5 c6 c7 c8 c9 c10 c11 c12
      refine ⟨by simpa [emptyStat] using c1, by simpa [emptyStat] using c2,
        ⟨by simpa [emptyStat] using c3, by simpa [emptyStat] using c4⟩,
        ⟨by simpa [emptyStat] using c5, by simpa [emptyStat] using c6⟩,
        ⟨by simpa [emptyStat] using c7, by simpa [emptyStat] using c8⟩,
        ⟨by simpa [emptyStat] using c9, by simpa [emptyStat] using c10⟩,
        ⟨by simpa [emptyStat] using c11, by simpa [emptyStat] using c12⟩,
        ?_, ?_⟩
      · intro hpos
        unfold winRate
        rw [if_pos hpos]
      · intro hw hpos
        unfold winRate
        rw [if_pos hpos, hw]
        exact div_self (by exact_mod_cast hpos.ne')

/-- A 50-bar close series for the scanner scenario: flat at 100, then a
staircase whose MACD line crosses above its signal line exactly at days
30, 39 and 42, each followed by a positive 5-day move. -/
def c8closes : List ℚ :=
  [100, 100, 100, 100, 100, 100, 100, 100, 100, 100, 100, 100, 100, 100,
   100, 100, 100, 100, 100, 100, 100, 100, 100, 100, 100, 100, 100, 100,
   98, 101, 101, 101, 101, 101, 101, 104, 102, 99, 99, 102, 102, 99, 102,
   104, 106, 106, 106, 106, 106, 106]

/-- The scenario bars (`high = low = close`). -/
def c8klines : List Kline := c8closes.map (fun c => ⟨c, c, c⟩)

/-- The scanner's `"MACD金叉"` entry on `c8klines`: three firings, all
three 5-day forward returns positive. -/
def c8stat : SignalStat :=
  { type := "buy", count := 3
    p1 := ⟨1, 3, [0, 0, 1/51]⟩
    p3 := ⟨1, 3, [0, 0, 2/51]⟩
    p5 := ⟨3, 3, [3/101, 2/51, 2/51]⟩
    p10 := ⟨2, 2, [1/101, 2/51]⟩
    p20 := ⟨0, 0, []⟩ }

set_option maxRecDepth 100000 in
set_option maxHeartbeats 4000000 in
unseal Rat.mul Rat.add Rat.sub Rat.inv in
/-- C8 witness: on `c8klines` the `"MACD金叉"` entry is buy-typed, fires
exactly 3 times, resolves all three 5-day horizons as wins, and its
5-day `win_rate` is `1`. -/
theorem c8_scanner_win_counting_witness :
    (50 ≤ c8klines.length ∧
      (∀ e ∈ firingEvents c8klines, e.2.1 = "MACD金叉" → e.2.2.1 = "buy") ∧
      (scanStats c8klines).lookup "MACD金叉" = some c8stat) ∧
    (c8stat.type = "buy" ∧
      c8stat.count = ((firingEvents c8klines).filter
        (fun e => decide (e.2.1 = "MACD金叉"))).length ∧
      c8stat.count = 3 ∧ c8stat.p5.wins = 3 ∧ c8stat.p5.total = 3 ∧
      winRate c8stat.p5 = 1) := by
  have h := c8_scanner_win_counting c8klines "MACD金叉" "buy" c8stat
    (by decide) (by decide) (by decide)
  exact ⟨⟨by decide, by decide, by decide⟩,
    h.1, h.2.1, by decide, by decide, by decide,
    h.2.2.2.2.2.2.2.2 (by decide) (by decide)⟩

end StockAnalysis
